import Mathlib

/-!
# tokenizer.cpp: the command-line driver of the tokenizer

A shallow embedding of `src/tokenizer.cpp` (`endswith`, `get_lang_from_ext`,
`process_file`, `main`) and proofs of its dispatch properties.

A `std::string` is modelled by a Lean `String`: a finite sequence of characters
compared character by character, a `char` by a Lean `Char` (every byte value is
one).  Effects (opening a file, constructing a tokenizer, running a driver,
writing to `std::cerr`, calling `exit`) are recorded in an explicit event trace
together with the exit status.  What the program reads from its surroundings
is a parameter: the results of the `getopt` calls, the remaining arguments, the
lines `std::getline` delivers, and which files open.
-/

namespace Tokenizer

/-! ## `endswith` and `get_lang_from_ext` -/

/-- `std::equal(first1, last1, first2)`: walks the first range and compares each
element with the element at the same offset of the second range.  The second
range running out first is undefined behaviour in C++ (`endswith` excludes it
by its size test); it is given the value `false` here. -/
def std_equal : List Char → List Char → Bool
  | [], _ => true
  | _ :: _, [] => false
  | a :: as, b :: bs => if a = b then std_equal as bs else false

/-- `bool endswith(std::string const &str, std::string const &ending)`. -/
def endswith (str ending : String) : Bool :=
  if ending.data.length > str.data.length then false
  else std_equal ending.data.reverse str.data.reverse

/-- `std::string get_lang_from_ext(std::string filename)`. -/
def get_lang_from_ext (filename : String) : String :=
  if endswith filename ".cpp" || endswith filename ".h" || endswith filename ".hpp" then "C++"
  else if endswith filename ".cs" then "C#"
  else if endswith filename ".c" then "C"
  else if endswith filename ".java" then "Java"
  else if endswith filename ".py" then "Python"
  else ""

/-! ## Effects -/

/-- The six tokenizer classes that `process_file` can instantiate. -/
inductive TokenizerKind
  | JavaTokenizer
  | CTokenizer
  | CSharpTokenizer
  | CppTokenizer
  | PHPTokenizer
  | PythonTokenizer
  deriving DecidableEq, Repr

/-- The five processing-mode entry points of `TokenizerBase`. -/
inductive Driver
  | code_tokenize
  | numeric_tokenize
  | symbolic_tokenize
  | type_tokenize
  | type_code_tokenize
  deriving DecidableEq, Repr

/-- A tokenizer object as built by `new XTokenizer(cs, filename, opt)`: its class
and the constructor arguments that come from `process_file`. -/
structure TokenizerBase where
  kind : TokenizerKind
  filename : String
  opt : List String
  deriving DecidableEq, Repr

/-- Observable steps of a run, in program order. -/
inductive Event
  /-- entry into `process_file(lang, opt, filename, processing_type)` -/
  | call (lang : String) (opt : List String) (filename : String) (processing_type : Char)
  /-- `in.open(filename.c_str(), std::ifstream::in)` -/
  | open_file (filename : String)
  /-- `std::cin.rdbuf(in.rdbuf())` after a successful open of `filename` -/
  | cin_rdbuf (filename : String)
  /-- `t = new XTokenizer(cs, filename, opt)` -/
  | construct (t : TokenizerBase)
  /-- one of `t->code_tokenize()`, ..., `t->type_code_tokenize()` -/
  | tokenize (t : TokenizerBase) (d : Driver)
  /-- one line written to `std::cerr` -/
  | cerr (line : String)
  deriving DecidableEq, Repr

/-- What a piece of code has done: the events so far and, once `exit(s)` has been
called, `some s`.  `none` means control came back to the caller. -/
structure Outcome where
  events : List Event
  status : Option Nat
  deriving DecidableEq, Repr

/-- Sequential composition `a; b`: nothing of `b` happens once `a` has called `exit`. -/
def Outcome.andThen (a b : Outcome) : Outcome :=
  match a.status with
  | some s => ⟨a.events, some s⟩
  | none => ⟨a.events ++ b.events, b.status⟩

/-- `EXIT_SUCCESS` of `<cstdlib>`. -/
def EXIT_SUCCESS : Nat := 0

/-- `EXIT_FAILURE` of `<cstdlib>`. -/
def EXIT_FAILURE : Nat := 1

/-- The part of the operating system `process_file` looks at: whether `in.good()`
holds after `in.open(filename)`, and the text of `strerror(errno)` when it does not. -/
structure Env where
  good : String → Bool
  strerror : String → String

/-- Modelled from the spec: the constructors and the five drivers of the tokenizer
classes, declared in `CTokenizer.h`, ..., `PythonTokenizer.h`, which are not
among the sources.  By the spec a driver pulls tokens until end-of-input or the
first error token, and a lexical error ends that file's scan "without raising a
process-level failure"; so a driver call is recorded as one event and control
returns to `process_file`. -/
def TokenizerBase.run (t : TokenizerBase) (d : Driver) : Outcome :=
  ⟨[Event.tokenize t d], none⟩

/-! ## `process_file` -/

/-- The lines written to `std::cerr` for an unknown language. -/
def unknown_language : List Event :=
  [ Event.cerr "Unknown language specified.",
    Event.cerr "The following languages are supported:",
    Event.cerr "\tC",
    Event.cerr "\tCSharp (or C#)",
    Event.cerr "\tC++",
    Event.cerr "\tJava",
    Event.cerr "\tPHP",
    Event.cerr "\tPython" ]

/-- The lines written to `std::cerr` for an unknown processing type. -/
def unknown_processing_type : List Event :=
  [ Event.cerr "Unknown processing type specified.",
    Event.cerr "The following processing types are supported:",
    Event.cerr "\tc: output code; one token per line",
    Event.cerr "\tn: output numeric values",
    Event.cerr "\ts: output token symbols",
    Event.cerr "\tt: output token types",
    Event.cerr "\tT: output token types and code; one token per line" ]

/-- `static void process_file(const std::string lang, const std::vector<std::string> opt,
std::string filename, char processing_type)`. -/
def process_file (env : Env) (lang : String) (opt : List String)
    (filename : String) (processing_type : Char) : Outcome :=
  let entry : List Event := [Event.call lang opt filename processing_type]
  -- if (!filename.empty()) { in.open(...); if (!in.good()) { ...; exit(EXIT_FAILURE); } ... }
  if filename ≠ "" ∧ env.good filename = false then
    ⟨entry ++ [Event.open_file filename,
        Event.cerr ("Unable to open " ++ filename ++ ": " ++ env.strerror filename)],
      some EXIT_FAILURE⟩
  else
    let input : List Event :=
      entry ++ (if filename ≠ "" then [Event.open_file filename, Event.cin_rdbuf filename] else [])
    let t : Option TokenizerBase :=
      if lang = "" ∨ lang = "Java" then some ⟨TokenizerKind.JavaTokenizer, filename, opt⟩
      else if lang = "C" then some ⟨TokenizerKind.CTokenizer, filename, opt⟩
      else if lang = "CSharp" ∨ lang = "C#" then some ⟨TokenizerKind.CSharpTokenizer, filename, opt⟩
      else if lang = "C++" then some ⟨TokenizerKind.CppTokenizer, filename, opt⟩
      else if lang = "PHP" then some ⟨TokenizerKind.PHPTokenizer, filename, opt⟩
      else if lang = "Python" then some ⟨TokenizerKind.PythonTokenizer, filename, opt⟩
      else none
    match t with
    | none => ⟨input ++ unknown_language, some 1⟩
    | some t =>
      let built : Outcome := ⟨input ++ [Event.construct t], none⟩
      -- switch (processing_type)
      if processing_type = 'c' then built.andThen (t.run Driver.code_tokenize)
      else if processing_type = 'n' then built.andThen (t.run Driver.numeric_tokenize)
      else if processing_type = 's' then built.andThen (t.run Driver.symbolic_tokenize)
      else if processing_type = 't' then built.andThen (t.run Driver.type_tokenize)
      else if processing_type = 'T' then built.andThen (t.run Driver.type_code_tokenize)
      else ⟨built.events ++ unknown_processing_type, some 1⟩

/-! ## `main` -/

/-- The local variables of `main` that the `getopt` loop sets, with their initial values. -/
structure Options where
  lang : String := ""
  processing_opt : List String := []
  processing_type : Char := 'n'
  get_files_from_stdin : Bool := false
  deriving DecidableEq, Repr

/-- `*optarg`: the first `char` of a NUL-terminated C string, which is the
terminating NUL when the string is empty. -/
def deref (optarg : String) : Char :=
  match optarg.data with
  | [] => Char.ofNat 0
  | c :: _ => c

/-- The text of the usage line. -/
def usage (argv0 : String) : String :=
  "Usage: " ++ argv0 ++ " [-l lang] [-o opt] [-t type] [-L] [file ...]"

/-- The loop `while ((opt = getopt(argc, argv, "l:o:t:L:")) != -1) switch (opt) ...`.
The list holds, for each call of `getopt` that did not return `-1`, the value it
returned and the `optarg` it set.  The result is the final value of the locals,
or the outcome of the `default:` branch. -/
def getopt_loop (argv0 : String) : List (Char × String) → Options → Except Outcome Options
  | [], st => Except.ok st
  | (opt, optarg) :: rest, st =>
    if opt = 'l' then getopt_loop argv0 rest { st with lang := optarg }
    else if opt = 'o' then
      getopt_loop argv0 rest { st with processing_opt := st.processing_opt ++ [optarg] }
    else if opt = 't' then getopt_loop argv0 rest { st with processing_type := deref optarg }
    else if opt = 'L' then getopt_loop argv0 rest { st with get_files_from_stdin := true }
    else Except.error ⟨[Event.cerr (usage argv0)], some EXIT_FAILURE⟩

/-- The loop `while (std::getline(std::cin, cur)) if (!cur.empty()) filenames.push_back(cur);`
over the successive values `getline` stores in `cur`; the second argument is
the vector `filenames` built so far. -/
def read_filenames : List String → List String → List String
  | [], filenames => filenames
  | cur :: rest, filenames =>
    if cur ≠ "" then read_filenames rest (filenames ++ [cur])
    else read_filenames rest filenames

/-- The loop `for (std::string &filename : filenames) process_file(get_lang_from_ext(filename), ...)`. -/
def process_filenames (env : Env) (processing_opt : List String) (processing_type : Char) :
    List String → Outcome
  | [] => ⟨[], none⟩
  | filename :: rest =>
    (process_file env (get_lang_from_ext filename) processing_opt filename processing_type).andThen
      (process_filenames env processing_opt processing_type rest)

/-- The loop `while (argv[optind]) { process_file(lang, processing_opt, argv[optind], ...); optind++; }`
over the remaining arguments `argv[optind], argv[optind+1], ...`. -/
def process_argv (env : Env) (lang : String) (processing_opt : List String)
    (processing_type : Char) : List String → Outcome
  | [] => ⟨[], none⟩
  | arg :: rest =>
    (process_file env lang processing_opt arg processing_type).andThen
      (process_argv env lang processing_opt processing_type rest)

/-- `int main(int argc, char * const argv[])`.  `getopt` is the sequence of results of
the `getopt` calls, `args` the arguments from `argv[optind]` on when `getopt` has
returned `-1`, and `lines` the lines `std::getline` delivers from `std::cin`. -/
def main (env : Env) (argv0 : String) (getopt : List (Char × String))
    (args : List String) (lines : List String) : Outcome :=
  match getopt_loop argv0 getopt {} with
  | Except.error o => o
  | Except.ok st =>
    if st.get_files_from_stdin then
      (process_filenames env st.processing_opt st.processing_type (read_filenames lines [])).andThen
        ⟨[], some EXIT_SUCCESS⟩
    else if args = [] then
      (process_file env st.lang st.processing_opt "" st.processing_type).andThen
        ⟨[], some EXIT_SUCCESS⟩
    else
      (process_argv env st.lang st.processing_opt st.processing_type args).andThen
        ⟨[], some EXIT_SUCCESS⟩

/-! ## Observations on a trace -/

/-- The filenames handed to `process_file`, in call order. -/
def handed (events : List Event) : List String :=
  events.filterMap fun e =>
    match e with
    | Event.call _ _ filename _ => some filename
    | _ => none

/-- The `(lang, filename)` pairs of the calls of `process_file`, in call order. -/
def calls (events : List Event) : List (String × String) :=
  events.filterMap fun e =>
    match e with
    | Event.call lang _ filename _ => some (lang, filename)
    | _ => none

/-- The processing types handed to `process_file`, in call order. -/
def modes (events : List Event) : List Char :=
  events.filterMap fun e =>
    match e with
    | Event.call _ _ _ processing_type => some processing_type
    | _ => none

/-- The files on which `in.open` was attempted, in order. -/
def opened (events : List Event) : List String :=
  events.filterMap fun e =>
    match e with
    | Event.open_file filename => some filename
    | _ => none

/-- The tokenizer objects constructed, in order. -/
def constructed (events : List Event) : List TokenizerBase :=
  events.filterMap fun e =>
    match e with
    | Event.construct t => some t
    | _ => none

/-- The driver invocations, in order: which driver ran on which tokenizer object. -/
def drivers (events : List Event) : List (TokenizerBase × Driver) :=
  events.filterMap fun e =>
    match e with
    | Event.tokenize t d => some (t, d)
    | _ => none

/-- The files on which a driver ran, in order. -/
def tokenized (events : List Event) : List String :=
  (drivers events).map fun d => d.1.filename

/-- The files for which a tokenizer object was constructed, in order. -/
def built (events : List Event) : List String :=
  (constructed events).map fun t => t.filename

/-- The lines written to `std::cerr`, in order. -/
def stderr (events : List Event) : List String :=
  events.filterMap fun e =>
    match e with
    | Event.cerr line => some line
    | _ => none

/-! ## Specification-side definitions -/

/-- The input of a call of `process_file` is there: standard input (empty filename),
or a named file on which `in.good()` holds after the open. -/
def available (env : Env) (filename : String) : Prop :=
  filename = "" ∨ env.good filename = true

instance (env : Env) (filename : String) : Decidable (available env filename) := by
  unfold available; infer_instance

/-- The language identifiers that the specification lists as selecting a tokenizer. -/
def accepted (lang : String) : Prop :=
  lang ∈ ["", "Java", "C", "CSharp", "C#", "C++", "PHP", "Python"]

instance (lang : String) : Decidable (accepted lang) := by
  unfold accepted; infer_instance

/-- The processing-type characters that the specification lists as selecting a mode. -/
def valid_type (p : Char) : Prop :=
  p ∈ ['c', 'n', 's', 't', 'T']

instance (p : Char) : Decidable (valid_type p) := by
  unfold valid_type; infer_instance

/-- The tokenizer variant the specification assigns to a language identifier. -/
def spec_variant (lang : String) : Option TokenizerKind :=
  if lang = "" ∨ lang = "Java" then some TokenizerKind.JavaTokenizer
  else if lang = "C" then some TokenizerKind.CTokenizer
  else if lang = "CSharp" ∨ lang = "C#" then some TokenizerKind.CSharpTokenizer
  else if lang = "C++" then some TokenizerKind.CppTokenizer
  else if lang = "PHP" then some TokenizerKind.PHPTokenizer
  else if lang = "Python" then some TokenizerKind.PythonTokenizer
  else none

/-- The driver the specification assigns to a processing-type character. -/
def spec_driver (p : Char) : Option Driver :=
  if p = 'c' then some Driver.code_tokenize
  else if p = 'n' then some Driver.numeric_tokenize
  else if p = 's' then some Driver.symbolic_tokenize
  else if p = 't' then some Driver.type_tokenize
  else if p = 'T' then some Driver.type_code_tokenize
  else none

/-- The events of `process_file` up to and including a successful open: the call
itself and, for a named file, the open and the redirection of `std::cin`. -/
def input_events (lang : String) (opt : List String) (filename : String) (p : Char) :
    List Event :=
  Event.call lang opt filename p ::
    (if filename ≠ "" then [Event.open_file filename, Event.cin_rdbuf filename] else [])

/-- The line written to `std::cerr` when a named input cannot be opened. -/
def unable_to_open (env : Env) (filename : String) : String :=
  "Unable to open " ++ filename ++ ": " ++ env.strerror filename

/-- The inputs a run gets to: every element up to and including the first one whose
processing calls `exit`, and all of them when none does. -/
def reached {α : Type} (aborts : α → Bool) : List α → List α
  | [] => []
  | x :: xs => if aborts x then [x] else x :: reached aborts xs

/-- Whether the call of `process_file` for `filename` calls `exit`, when the language
passed for a file is `language filename`. -/
def aborts (env : Env) (language : String → String) (opt : List String) (p : Char)
    (filename : String) : Bool :=
  (process_file env (language filename) opt filename p).status.isSome

/-- Both file loops of `main` in one: `process_file` on each file in turn, with the
language `language filename`. -/
def process_each (env : Env) (language : String → String) (opt : List String) (p : Char) :
    List String → Outcome
  | [] => ⟨[], none⟩
  | filename :: rest =>
    (process_file env (language filename) opt filename p).andThen
      (process_each env language opt p rest)

/-- The `optarg` of the last occurrence of the option `c` among the results of `getopt`. -/
def last_optarg (c : Char) : List (Char × String) → Option String
  | [] => none
  | (opt, optarg) :: rest =>
    match last_optarg c rest with
    | some s => some s
    | none => if opt = c then some optarg else none

/-- The named inputs of a run in the order `main` takes them: the non-empty lines of the
list in file-list mode, the positional arguments otherwise. -/
def named_inputs (st : Options) (args lines : List String) : List String :=
  if st.get_files_from_stdin then lines.filter (fun cur => cur ≠ "") else args

/-- The language `main` passes to `process_file` for a named input. -/
def language_for (st : Options) (filename : String) : String :=
  if st.get_files_from_stdin then get_lang_from_ext filename else st.lang

/-- A file system in which the file "a" opens and no other file does. -/
def only_a : Env := ⟨fun f => f == "a", fun _ => "No such file or directory"⟩

/-- The suffix relation in the words of the specification: `ending` is no longer
than `str` and the last `|ending|` characters of `str` equal `ending`. -/
def spec_suffix (str ending : String) : Prop :=
  ending.data.length ≤ str.data.length ∧
    str.data.drop (str.data.length - ending.data.length) = ending.data

instance (str ending : String) : Decidable (spec_suffix str ending) := by
  unfold spec_suffix; infer_instance

/-- The seven extensions tested by `get_lang_from_ext`. -/
def extensions : List String := [".cpp", ".h", ".hpp", ".cs", ".c", ".java", ".py"]

/-- The five `if` statements of `get_lang_from_ext` as data: the extensions tested
and the language returned. -/
def if_statements : List (List String × String) :=
  [([".cpp", ".h", ".hpp"], "C++"), ([".cs"], "C#"), ([".c"], "C"),
   ([".java"], "Java"), ([".py"], "Python")]

/-- Runs a list of such `if` statements in the order given, ending with `return ""`. -/
def run_ifs : List (List String × String) → String → String
  | [], _ => ""
  | (exts, lang) :: rest, filename =>
    if exts.any (endswith filename) then lang else run_ifs rest filename

/-! ## Lemmas on `endswith` -/

theorem std_equal_iff (p r : List Char) : std_equal p r = true ↔ p <+: r := by
  induction p generalizing r with
  | nil => simp [std_equal]
  | cons a as ih =>
    cases r with
    | nil => simp [std_equal]
    | cons b bs =>
      by_cases h : a = b
      · simp [std_equal, h, ih, List.cons_prefix_cons]
      · simp [std_equal, h, List.cons_prefix_cons]

theorem endswith_iff_suffix (str ending : String) :
    endswith str ending = true ↔ ending.data <:+ str.data := by
  unfold endswith
  split
  · rename_i h
    constructor
    · intro h'; cases h'
    · intro h'; have := h'.length_le; omega
  · rw [std_equal_iff, List.reverse_prefix]

theorem suffix_iff_spec_suffix (str ending : String) :
    ending.data <:+ str.data ↔ spec_suffix str ending := by
  unfold spec_suffix
  constructor
  · intro h
    exact ⟨h.length_le, (List.suffix_iff_eq_drop.mp h).symm⟩
  · rintro ⟨_, h⟩
    rw [← h]
    exact List.drop_suffix _ _

theorem extensions_exclusive :
    ∀ e1 ∈ extensions, ∀ e2 ∈ extensions, e1 ≠ e2 → ¬ e1.data <:+ e2.data := by
  decide

theorem endswith_exclusive (s e1 e2 : String) (h1 : e1 ∈ extensions) (h2 : e2 ∈ extensions)
    (hs1 : endswith s e1 = true) (hs2 : endswith s e2 = true) : e1 = e2 := by
  by_contra hne
  rw [endswith_iff_suffix] at hs1 hs2
  rcases List.suffix_or_suffix_of_suffix hs1 hs2 with h | h
  · exact extensions_exclusive e1 h1 e2 h2 hne h
  · exact extensions_exclusive e2 h2 e1 h1 (Ne.symm hne) h

theorem run_ifs_if_statements (filename : String) :
    run_ifs if_statements filename = get_lang_from_ext filename := by
  simp [run_ifs, if_statements, get_lang_from_ext, List.any, or_assoc]

theorem if_statements_exclusive :
    ∀ r1 ∈ if_statements, ∀ r2 ∈ if_statements, ∀ e ∈ r1.1, e ∈ r2.1 → r1.2 = r2.2 := by
  decide

theorem if_statements_extensions : ∀ r ∈ if_statements, ∀ e ∈ r.1, e ∈ extensions := by
  decide

/-- Two `if` statements whose tests both succeed on a filename return the same language. -/
theorem if_statements_agree (filename : String) (r1 r2 : List String × String)
    (h1 : r1 ∈ if_statements) (h2 : r2 ∈ if_statements)
    (m1 : r1.1.any (endswith filename) = true) (m2 : r2.1.any (endswith filename) = true) :
    r1.2 = r2.2 := by
  rw [List.any_eq_true] at m1 m2
  obtain ⟨e1, he1, hs1⟩ := m1
  obtain ⟨e2, he2, hs2⟩ := m2
  have heq : e1 = e2 :=
    endswith_exclusive filename e1 e2 (if_statements_extensions r1 h1 e1 he1)
      (if_statements_extensions r2 h2 e2 he2) hs1 hs2
  subst heq
  exact if_statements_exclusive r1 h1 r2 h2 e1 he1 he2

/-- On statements that agree whenever two of them fire, the result of `run_ifs` is
the language of any statement that fires. -/
theorem run_ifs_of_fires (filename : String) (rules : List (List String × String))
    (hx : ∀ r1 ∈ rules, ∀ r2 ∈ rules, r1.1.any (endswith filename) = true →
      r2.1.any (endswith filename) = true → r1.2 = r2.2)
    (r : List String × String) (hr : r ∈ rules) (hm : r.1.any (endswith filename) = true) :
    run_ifs rules filename = r.2 := by
  induction rules with
  | nil => cases hr
  | cons hd tl ih =>
    obtain ⟨exts, lang⟩ := hd
    by_cases hfire : exts.any (endswith filename) = true
    · have := hx (exts, lang) (List.mem_cons_self _ _) r hr hfire hm
      simp only [run_ifs, hfire, if_true]
      exact this
    · have hr' : r ∈ tl := by
        rcases List.mem_cons.mp hr with h | h
        · subst h; exact absurd hm hfire
        · exact h
      simp only [run_ifs, hfire]
      exact ih (fun r1 h1 r2 h2 => hx r1 (List.mem_cons_of_mem _ h1) r2 (List.mem_cons_of_mem _ h2)) hr'

theorem run_ifs_of_none (filename : String) (rules : List (List String × String))
    (hn : ∀ r ∈ rules, r.1.any (endswith filename) = false) :
    run_ifs rules filename = "" := by
  induction rules with
  | nil => rfl
  | cons hd tl ih =>
    obtain ⟨exts, lang⟩ := hd
    have h0 : exts.any (endswith filename) = false := hn (exts, lang) (List.mem_cons_self _ _)
    simp only [run_ifs, h0]
    exact ih (fun r h => hn r (List.mem_cons_of_mem _ h))

theorem run_ifs_perm (filename : String) (order : List (List String × String))
    (hp : List.Perm order if_statements) :
    run_ifs order filename = run_ifs if_statements filename := by
  by_cases h : ∃ r ∈ if_statements, r.1.any (endswith filename) = true
  · obtain ⟨r, hr, hm⟩ := h
    have hx : ∀ rules : List (List String × String), (∀ x, x ∈ rules → x ∈ if_statements) →
        ∀ r1 ∈ rules, ∀ r2 ∈ rules, r1.1.any (endswith filename) = true →
          r2.1.any (endswith filename) = true → r1.2 = r2.2 :=
      fun rules hsub r1 h1 r2 h2 m1 m2 =>
        if_statements_agree filename r1 r2 (hsub r1 h1) (hsub r2 h2) m1 m2
    rw [run_ifs_of_fires filename order (hx order (fun x hx' => hp.mem_iff.mp hx')) r
          (hp.mem_iff.mpr hr) hm,
        run_ifs_of_fires filename if_statements (hx if_statements (fun x hx' => hx')) r hr hm]
  · have hn : ∀ r ∈ if_statements, r.1.any (endswith filename) = false := by
      intro r hr
      by_contra hc
      exact h ⟨r, hr, by simpa using hc⟩
    rw [run_ifs_of_none filename order (fun r hr => hn r (hp.mem_iff.mp hr)),
        run_ifs_of_none filename if_statements hn]

/-! ## Claims on `get_lang_from_ext` -/

/-- C1: `endswith` is the true string-suffix relation, and `get_lang_from_ext` returns "C++"
for a filename with suffix ".cpp", ".h" or ".hpp", otherwise "C#" for ".cs", otherwise "C"
for ".c", otherwise "Java" for ".java", otherwise "Python" for ".py", and otherwise the empty
string; the filename "c" yields the empty string and ".c" yields "C". -/
theorem get_lang_from_ext_by_suffix (f : String) :
    (∀ str ending : String, endswith str ending = true ↔ spec_suffix str ending) ∧
    get_lang_from_ext f =
      (if spec_suffix f ".cpp" ∨ spec_suffix f ".h" ∨ spec_suffix f ".hpp" then "C++"
       else if spec_suffix f ".cs" then "C#"
       else if spec_suffix f ".c" then "C"
       else if spec_suffix f ".java" then "Java"
       else if spec_suffix f ".py" then "Python"
       else "") ∧
    get_lang_from_ext "c" = "" ∧ get_lang_from_ext ".c" = "C" := by
  have key : ∀ str ending : String, endswith str ending = true ↔ spec_suffix str ending :=
    fun str ending => (endswith_iff_suffix str ending).trans (suffix_iff_spec_suffix str ending)
  refine ⟨key, ?_, by decide, by decide⟩
  simp only [get_lang_from_ext, Bool.or_eq_true, key, or_assoc]

/-- C9: no filename has two different members of the seven tested extensions as a suffix,
and running the five `if` statements of `get_lang_from_ext` in any order computes the same
function as `get_lang_from_ext`. -/
theorem extension_tests_exclusive_order_free (filename : String) :
    (∀ e1 ∈ extensions, ∀ e2 ∈ extensions, e1 ≠ e2 →
        ¬ (endswith filename e1 = true ∧ endswith filename e2 = true)) ∧
    run_ifs if_statements filename = get_lang_from_ext filename ∧
    (∀ order : List (List String × String), List.Perm order if_statements →
        run_ifs order filename = get_lang_from_ext filename) := by
  refine ⟨?_, run_ifs_if_statements filename, ?_⟩
  · intro e1 h1 e2 h2 hne ⟨hs1, hs2⟩
    exact hne (endswith_exclusive filename e1 e2 h1 h2 hs1 hs2)
  · intro order hp
    rw [run_ifs_perm filename order hp, run_ifs_if_statements]

/-- Witness for C9 at the filename "a.cs": it does not end in both ".cs" and ".c", and the
five statements in reverse order give the same language. -/
theorem extension_tests_exclusive_order_free_witness :
    ¬ (endswith "a.cs" ".cs" = true ∧ endswith "a.cs" ".c" = true) ∧
    run_ifs if_statements.reverse "a.cs" = get_lang_from_ext "a.cs" ∧
    get_lang_from_ext "a.cs" = "C#" :=
  ⟨(extension_tests_exclusive_order_free "a.cs").1 ".cs" (by decide) ".c" (by decide) (by decide),
   (extension_tests_exclusive_order_free "a.cs").2.2 if_statements.reverse
      (List.reverse_perm if_statements),
   by decide⟩

/-! ## Lemmas on `process_file` -/

theorem spec_variant_isSome (lang : String) : (spec_variant lang).isSome = true ↔ accepted lang := by
  unfold spec_variant accepted
  by_cases h1 : lang = "" ∨ lang = "Java"
  · rcases h1 with h | h <;> subst h <;> decide
  by_cases h2 : lang = "C"
  · subst h2; decide
  by_cases h3 : lang = "CSharp" ∨ lang = "C#"
  · rcases h3 with h | h <;> subst h <;> decide
  by_cases h4 : lang = "C++"
  · subst h4; decide
  by_cases h5 : lang = "PHP"
  · subst h5; decide
  by_cases h6 : lang = "Python"
  · subst h6; decide
  push_neg at h1 h3
  simp [h1, h2, h3, h4, h5, h6]

theorem spec_driver_isSome (p : Char) : (spec_driver p).isSome = true ↔ valid_type p := by
  unfold spec_driver valid_type
  by_cases h1 : p = 'c'
  · subst h1; decide
  by_cases h2 : p = 'n'
  · subst h2; decide
  by_cases h3 : p = 's'
  · subst h3; decide
  by_cases h4 : p = 't'
  · subst h4; decide
  by_cases h5 : p = 'T'
  · subst h5; decide
  simp [h1, h2, h3, h4, h5]

/-- The four ways a call of `process_file` can go. -/
theorem process_file_eq (env : Env) (lang : String) (opt : List String) (filename : String)
    (p : Char) :
    process_file env lang opt filename p =
      if available env filename then
        match spec_variant lang with
        | none => ⟨input_events lang opt filename p ++ unknown_language, some 1⟩
        | some k =>
          match spec_driver p with
          | none =>
            ⟨input_events lang opt filename p ++ [Event.construct ⟨k, filename, opt⟩] ++
              unknown_processing_type, some 1⟩
          | some d =>
            ⟨input_events lang opt filename p ++
              [Event.construct ⟨k, filename, opt⟩, Event.tokenize ⟨k, filename, opt⟩ d], none⟩
      else
        ⟨[Event.call lang opt filename p, Event.open_file filename,
          Event.cerr (unable_to_open env filename)], some EXIT_FAILURE⟩ := by
  by_cases ha : available env filename
  · have hc : ¬ (filename ≠ "" ∧ env.good filename = false) := by
      unfold available at ha
      rcases ha with h | h
      · simp [h]
      · simp [h]
    have hv : (if lang = "" ∨ lang = "Java" then
          some (⟨TokenizerKind.JavaTokenizer, filename, opt⟩ : TokenizerBase)
        else if lang = "C" then some ⟨TokenizerKind.CTokenizer, filename, opt⟩
        else if lang = "CSharp" ∨ lang = "C#" then some ⟨TokenizerKind.CSharpTokenizer, filename, opt⟩
        else if lang = "C++" then some ⟨TokenizerKind.CppTokenizer, filename, opt⟩
        else if lang = "PHP" then some ⟨TokenizerKind.PHPTokenizer, filename, opt⟩
        else if lang = "Python" then some ⟨TokenizerKind.PythonTokenizer, filename, opt⟩
        else none) = (spec_variant lang).map (fun k => ⟨k, filename, opt⟩) := by
      unfold spec_variant
      split_ifs <;> rfl
    simp only [process_file, hc, if_false, ha, if_true, hv]
    have hi : ([Event.call lang opt filename p] ++
        if filename ≠ "" then [Event.open_file filename, Event.cin_rdbuf filename] else []) =
        input_events lang opt filename p := rfl
    rw [hi]
    generalize input_events lang opt filename p = input
    cases spec_variant lang with
    | none => rfl
    | some k =>
      simp only [Option.map]
      unfold spec_driver
      split_ifs <;> simp [Outcome.andThen, TokenizerBase.run]
  · have hc : filename ≠ "" ∧ env.good filename = false := by
      unfold available at ha
      push_neg at ha
      exact ⟨ha.1, by simpa using ha.2⟩
    simp [process_file, hc, ha, unable_to_open]

theorem observe_input_events (lang : String) (opt : List String) (filename : String) (p : Char) :
    handed (input_events lang opt filename p) = [filename] ∧
    calls (input_events lang opt filename p) = [(lang, filename)] ∧
    opened (input_events lang opt filename p) = (if filename ≠ "" then [filename] else []) ∧
    constructed (input_events lang opt filename p) = [] ∧
    drivers (input_events lang opt filename p) = [] ∧
    stderr (input_events lang opt filename p) = [] := by
  by_cases hf : filename = "" <;>
    simp [input_events, handed, calls, opened, constructed, drivers, stderr, hf]

theorem observe_unknown_language :
    handed unknown_language = [] ∧ calls unknown_language = [] ∧ opened unknown_language = [] ∧
    constructed unknown_language = [] ∧ drivers unknown_language = [] := by
  simp [unknown_language, handed, calls, opened, constructed, drivers]

theorem observe_unknown_processing_type :
    handed unknown_processing_type = [] ∧ calls unknown_processing_type = [] ∧
    opened unknown_processing_type = [] ∧ constructed unknown_processing_type = [] ∧
    drivers unknown_processing_type = [] := by
  simp [unknown_processing_type, handed, calls, opened, constructed, drivers]

theorem handed_append (a b : List Event) : handed (a ++ b) = handed a ++ handed b := by
  simp [handed]

theorem calls_append (a b : List Event) : calls (a ++ b) = calls a ++ calls b := by
  simp [calls]

theorem opened_append (a b : List Event) : opened (a ++ b) = opened a ++ opened b := by
  simp [opened]

theorem constructed_append (a b : List Event) :
    constructed (a ++ b) = constructed a ++ constructed b := by
  simp [constructed]

theorem drivers_append (a b : List Event) : drivers (a ++ b) = drivers a ++ drivers b := by
  simp [drivers]

theorem stderr_append (a b : List Event) : stderr (a ++ b) = stderr a ++ stderr b := by
  simp [stderr]

theorem handed_process_file (env : Env) (lang : String) (opt : List String) (filename : String)
    (p : Char) : handed (process_file env lang opt filename p).events = [filename] := by
  rw [process_file_eq]
  split_ifs
  · cases spec_variant lang <;> cases spec_driver p <;>
      simp only [handed_append, observe_input_events, observe_unknown_language,
        observe_unknown_processing_type] <;> simp [handed]
  · simp [handed]

theorem calls_process_file (env : Env) (lang : String) (opt : List String) (filename : String)
    (p : Char) : calls (process_file env lang opt filename p).events = [(lang, filename)] := by
  rw [process_file_eq]
  split_ifs
  · cases spec_variant lang <;> cases spec_driver p <;>
      simp only [calls_append, observe_input_events, observe_unknown_language,
        observe_unknown_processing_type] <;> simp [calls]
  · simp [calls]

theorem opened_process_file (env : Env) (lang : String) (opt : List String) (filename : String)
    (p : Char) :
    opened (process_file env lang opt filename p).events =
      (if filename ≠ "" then [filename] else []) := by
  rw [process_file_eq]
  split_ifs with ha hf hf
  · cases spec_variant lang <;> cases spec_driver p <;>
      simp only [opened_append, observe_input_events, observe_unknown_language,
        observe_unknown_processing_type] <;> simp [opened, hf]
  · cases spec_variant lang <;> cases spec_driver p <;>
      simp only [opened_append, observe_input_events, observe_unknown_language,
        observe_unknown_processing_type] <;> simp [opened, hf]
  · simp [opened]
  · exfalso; exact ha (Or.inl (not_not.mp hf))

theorem constructed_process_file (env : Env) (lang : String) (opt : List String)
    (filename : String) (p : Char) :
    constructed (process_file env lang opt filename p).events =
      if available env filename then
        match spec_variant lang with
        | none => []
        | some k => [⟨k, filename, opt⟩]
      else [] := by
  rw [process_file_eq]
  split_ifs
  · cases spec_variant lang <;> cases spec_driver p <;>
      simp only [constructed_append, observe_input_events, observe_unknown_language,
        observe_unknown_processing_type] <;> simp [constructed]
  · simp [constructed]

theorem drivers_process_file (env : Env) (lang : String) (opt : List String)
    (filename : String) (p : Char) :
    drivers (process_file env lang opt filename p).events =
      if available env filename then
        match spec_variant lang, spec_driver p with
        | some k, some d => [(⟨k, filename, opt⟩, d)]
        | _, _ => []
      else [] := by
  rw [process_file_eq]
  split_ifs
  · cases spec_variant lang <;> cases spec_driver p <;>
      simp only [drivers_append, observe_input_events, observe_unknown_language,
        observe_unknown_processing_type] <;> simp [drivers]
  · simp [drivers]

theorem status_process_file (env : Env) (lang : String) (opt : List String)
    (filename : String) (p : Char) :
    (process_file env lang opt filename p).status =
      if available env filename then
        match spec_variant lang, spec_driver p with
        | some _, some _ => none
        | _, _ => some 1
      else some EXIT_FAILURE := by
  rw [process_file_eq]
  split_ifs
  · cases spec_variant lang <;> cases spec_driver p <;> rfl
  · rfl

theorem stderr_process_file (env : Env) (lang : String) (opt : List String)
    (filename : String) (p : Char) :
    stderr (process_file env lang opt filename p).events =
      if available env filename then
        match spec_variant lang, spec_driver p with
        | none, _ => stderr unknown_language
        | some _, none => stderr unknown_processing_type
        | some _, some _ => []
      else [unable_to_open env filename] := by
  rw [process_file_eq]
  split_ifs
  · cases spec_variant lang <;> cases spec_driver p <;>
      simp [stderr_append, observe_input_events] <;> simp [stderr]
  · simp [stderr]

theorem spec_driver_eq_some (p : Char) :
    (spec_driver p = some Driver.code_tokenize ↔ p = 'c') ∧
    (spec_driver p = some Driver.numeric_tokenize ↔ p = 'n') ∧
    (spec_driver p = some Driver.symbolic_tokenize ↔ p = 's') ∧
    (spec_driver p = some Driver.type_tokenize ↔ p = 't') ∧
    (spec_driver p = some Driver.type_code_tokenize ↔ p = 'T') := by
  unfold spec_driver
  split_ifs with h1 h2 h3 h4 h5
  · subst h1; decide
  · subst h2; decide
  · subst h3; decide
  · subst h4; decide
  · subst h5; decide
  · simp [h1, h2, h3, h4, h5]

theorem spec_variant_eq_some (lang : String) :
    (spec_variant lang = some TokenizerKind.JavaTokenizer ↔ lang = "" ∨ lang = "Java") ∧
    (spec_variant lang = some TokenizerKind.CTokenizer ↔ lang = "C") ∧
    (spec_variant lang = some TokenizerKind.CSharpTokenizer ↔ lang = "C#" ∨ lang = "CSharp") ∧
    (spec_variant lang = some TokenizerKind.CppTokenizer ↔ lang = "C++") ∧
    (spec_variant lang = some TokenizerKind.PHPTokenizer ↔ lang = "PHP") ∧
    (spec_variant lang = some TokenizerKind.PythonTokenizer ↔ lang = "Python") := by
  unfold spec_variant
  split_ifs with h1 h2 h3 h4 h5 h6
  · rcases h1 with h | h <;> subst h <;> decide
  · subst h2; decide
  · rcases h3 with h | h <;> subst h <;> decide
  · subst h4; decide
  · subst h5; decide
  · subst h6; decide
  · push_neg at h1 h3
    simp [h1, h2, h3, h4, h5, h6]

theorem spec_variant_eq_none (lang : String) : spec_variant lang = none ↔ ¬ accepted lang := by
  rw [← spec_variant_isSome]
  cases spec_variant lang <;> simp

theorem spec_driver_eq_none (p : Char) : spec_driver p = none ↔ ¬ valid_type p := by
  rw [← spec_driver_isSome]
  cases spec_driver p <;> simp

theorem unable_to_open_not_unknown_type (env : Env) (filename : String) :
    unable_to_open env filename ≠ "Unknown processing type specified." := by
  intro h
  have h2 := congrArg String.data h
  simp [unable_to_open, String.data_append] at h2

/-! ## Claims on `process_file` -/

/-- C2: on an input that is there, `process_file` constructs the Java tokenizer exactly for the
language strings "" and "Java", the C tokenizer for "C", the C# tokenizer for "C#" and
"CSharp", the C++ tokenizer for "C++", the PHP tokenizer for "PHP" and the Python tokenizer
for "Python"; for every other string, "java" among them, it constructs no tokenizer, runs no
driver and exits with status 1 after the unknown-language message.  The language that `main`
starts from is the empty string. -/
theorem process_file_language_selection (env : Env) (lang : String) (opt : List String)
    (filename : String) (p : Char) (h : available env filename) :
    (constructed (process_file env lang opt filename p).events =
        [⟨TokenizerKind.JavaTokenizer, filename, opt⟩] ↔ lang = "" ∨ lang = "Java") ∧
    (constructed (process_file env lang opt filename p).events =
        [⟨TokenizerKind.CTokenizer, filename, opt⟩] ↔ lang = "C") ∧
    (constructed (process_file env lang opt filename p).events =
        [⟨TokenizerKind.CSharpTokenizer, filename, opt⟩] ↔ lang = "C#" ∨ lang = "CSharp") ∧
    (constructed (process_file env lang opt filename p).events =
        [⟨TokenizerKind.CppTokenizer, filename, opt⟩] ↔ lang = "C++") ∧
    (constructed (process_file env lang opt filename p).events =
        [⟨TokenizerKind.PHPTokenizer, filename, opt⟩] ↔ lang = "PHP") ∧
    (constructed (process_file env lang opt filename p).events =
        [⟨TokenizerKind.PythonTokenizer, filename, opt⟩] ↔ lang = "Python") ∧
    (lang ∉ ["", "Java", "C", "CSharp", "C#", "C++", "PHP", "Python"] →
        constructed (process_file env lang opt filename p).events = [] ∧
        drivers (process_file env lang opt filename p).events = [] ∧
        (process_file env lang opt filename p).status = some 1 ∧
        stderr (process_file env lang opt filename p).events = stderr unknown_language) ∧
    (constructed (process_file env "java" opt filename p).events = [] ∧
        (process_file env "java" opt filename p).status = some 1) ∧
    ({} : Options).lang = "" := by
  have hc := fun l => constructed_process_file env l opt filename p
  have hd := drivers_process_file env lang opt filename p
  have hs := fun l => status_process_file env l opt filename p
  have he := stderr_process_file env lang opt filename p
  simp only [h, if_true] at hc hd hs he
  obtain ⟨v1, v2, v3, v4, v5, v6⟩ := spec_variant_eq_some lang
  have key : ∀ k : TokenizerKind,
      constructed (process_file env lang opt filename p).events = [⟨k, filename, opt⟩] ↔
        spec_variant lang = some k := by
    intro k
    rw [hc]
    cases spec_variant lang <;> simp
  refine ⟨(key _).trans v1, (key _).trans v2, (key _).trans v3, (key _).trans v4,
    (key _).trans v5, (key _).trans v6, ?_, ?_, rfl⟩
  · intro hn
    have hnone : spec_variant lang = none := by
      rw [spec_variant_eq_none]
      exact hn
    rw [hc, hd, hs, he, hnone]
    exact ⟨rfl, rfl, rfl, rfl⟩
  · have hj : spec_variant "java" = none := by decide
    rw [hc, hs, hj]
    exact ⟨rfl, rfl⟩

/-- Witness for C2: reading standard input with the language "C#", and with "Pascal". -/
theorem process_file_language_selection_witness :
    available ⟨fun _ => false, fun _ => ""⟩ "" ∧
    (constructed (process_file ⟨fun _ => false, fun _ => ""⟩ "C#" [] "" 'n').events =
        [⟨TokenizerKind.CSharpTokenizer, "", []⟩] ↔ "C#" = "C#" ∨ "C#" = "CSharp") ∧
    (constructed (process_file ⟨fun _ => false, fun _ => ""⟩ "Pascal" [] "" 'n').events = [] ∧
      drivers (process_file ⟨fun _ => false, fun _ => ""⟩ "Pascal" [] "" 'n').events = [] ∧
      (process_file ⟨fun _ => false, fun _ => ""⟩ "Pascal" [] "" 'n').status = some 1 ∧
      stderr (process_file ⟨fun _ => false, fun _ => ""⟩ "Pascal" [] "" 'n').events =
        stderr unknown_language) :=
  ⟨by decide,
   (process_file_language_selection ⟨fun _ => false, fun _ => ""⟩ "C#" [] "" 'n'
      (by decide)).2.2.1,
   (process_file_language_selection ⟨fun _ => false, fun _ => ""⟩ "Pascal" [] "" 'n'
      (by decide)).2.2.2.2.2.2.1 (by decide)⟩

/-- C3: when the language is not an accepted one or the processing type is not one of
'c', 'n', 's', 't', 'T', `process_file` exits with the failure status 1 and no driver has been
invoked; when both are unknown the processing-type message is never written, and the
unknown-language message is what is written once the input has been opened (or is standard
input). -/
theorem configuration_error_is_fatal (env : Env) (lang : String) (opt : List String)
    (filename : String) (p : Char) (h : ¬ accepted lang ∨ ¬ valid_type p) :
    (process_file env lang opt filename p).status = some 1 ∧
    1 ≠ EXIT_SUCCESS ∧
    drivers (process_file env lang opt filename p).events = [] ∧
    (¬ accepted lang → ¬ valid_type p →
        "Unknown processing type specified." ∉
          stderr (process_file env lang opt filename p).events ∧
        (available env filename →
          stderr (process_file env lang opt filename p).events = stderr unknown_language)) := by
  have hd := drivers_process_file env lang opt filename p
  have hs := status_process_file env lang opt filename p
  have he := stderr_process_file env lang opt filename p
  have hcfg : spec_variant lang = none ∨ spec_driver p = none := by
    rcases h with h | h
    · exact Or.inl ((spec_variant_eq_none lang).mpr h)
    · exact Or.inr ((spec_driver_eq_none p).mpr h)
  refine ⟨?_, by decide, ?_, ?_⟩
  · rw [hs]
    split_ifs
    · rcases hcfg with h | h
      · rw [h]
      · rw [h]; cases spec_variant lang <;> rfl
    · rfl
  · rw [hd]
    split_ifs
    · rcases hcfg with h | h
      · rw [h]
      · rw [h]; cases spec_variant lang <;> rfl
    · rfl
  · intro hl _
    have hnone : spec_variant lang = none := (spec_variant_eq_none lang).mpr hl
    rw [he, hnone]
    constructor
    · split_ifs
      · have hu : "Unknown processing type specified." ∉ stderr unknown_language := by decide
        cases spec_driver p <;> exact hu
      · simp only [List.mem_singleton]
        exact fun hc => unable_to_open_not_unknown_type env filename hc.symm
    · intro ha
      simp [ha]

/-- Witness for C3: language "Fortran" and processing type 'x' on standard input. -/
theorem configuration_error_is_fatal_witness :
    (¬ accepted "Fortran" ∨ ¬ valid_type 'x') ∧
    (process_file ⟨fun _ => true, fun _ => ""⟩ "Fortran" [] "" 'x').status = some 1 ∧
    drivers (process_file ⟨fun _ => true, fun _ => ""⟩ "Fortran" [] "" 'x').events = [] ∧
    "Unknown processing type specified." ∉
      stderr (process_file ⟨fun _ => true, fun _ => ""⟩ "Fortran" [] "" 'x').events ∧
    stderr (process_file ⟨fun _ => true, fun _ => ""⟩ "Fortran" [] "" 'x').events =
      stderr unknown_language :=
  ⟨by decide,
   (configuration_error_is_fatal ⟨fun _ => true, fun _ => ""⟩ "Fortran" [] "" 'x'
      (Or.inl (by decide))).1,
   (configuration_error_is_fatal ⟨fun _ => true, fun _ => ""⟩ "Fortran" [] "" 'x'
      (Or.inl (by decide))).2.2.1,
   ((configuration_error_is_fatal ⟨fun _ => true, fun _ => ""⟩ "Fortran" [] "" 'x'
      (Or.inl (by decide))).2.2.2 (by decide) (by decide)).1,
   ((configuration_error_is_fatal ⟨fun _ => true, fun _ => ""⟩ "Fortran" [] "" 'x'
      (Or.inl (by decide))).2.2.2 (by decide) (by decide)).2 (by decide)⟩

/-- C4: for an accepted language and an input that is there, `process_file` invokes exactly
one driver when the processing type is one of the five characters, namely `code_tokenize` for
'c', `numeric_tokenize` for 'n', `symbolic_tokenize` for 's', `type_tokenize` for 't' and
`type_code_tokenize` for 'T', and for no other character; different characters among the five
invoke different drivers, and every other character invokes no driver. -/
theorem processing_type_selects_driver (env : Env) (lang : String) (opt : List String)
    (filename : String) (p : Char) (hl : accepted lang) (ha : available env filename) :
    ((drivers (process_file env lang opt filename p).events).map Prod.snd =
        [Driver.code_tokenize] ↔ p = 'c') ∧
    ((drivers (process_file env lang opt filename p).events).map Prod.snd =
        [Driver.numeric_tokenize] ↔ p = 'n') ∧
    ((drivers (process_file env lang opt filename p).events).map Prod.snd =
        [Driver.symbolic_tokenize] ↔ p = 's') ∧
    ((drivers (process_file env lang opt filename p).events).map Prod.snd =
        [Driver.type_tokenize] ↔ p = 't') ∧
    ((drivers (process_file env lang opt filename p).events).map Prod.snd =
        [Driver.type_code_tokenize] ↔ p = 'T') ∧
    (valid_type p → (drivers (process_file env lang opt filename p).events).length = 1) ∧
    (¬ valid_type p → drivers (process_file env lang opt filename p).events = []) ∧
    (∀ q : Char, valid_type p → valid_type q →
        (drivers (process_file env lang opt filename p).events).map Prod.snd =
          (drivers (process_file env lang opt filename q).events).map Prod.snd → p = q) := by
  obtain ⟨k, hk⟩ := Option.isSome_iff_exists.mp ((spec_variant_isSome lang).mpr hl)
  have hd : ∀ q : Char, (drivers (process_file env lang opt filename q).events).map Prod.snd =
      (spec_driver q).toList := by
    intro q
    rw [drivers_process_file, if_pos ha, hk]
    cases spec_driver q <;> rfl
  have key : ∀ d : Driver,
      (drivers (process_file env lang opt filename p).events).map Prod.snd = [d] ↔
        spec_driver p = some d := by
    intro d
    rw [hd]
    cases spec_driver p <;> simp
  obtain ⟨d1, d2, d3, d4, d5⟩ := spec_driver_eq_some p
  refine ⟨(key _).trans d1, (key _).trans d2, (key _).trans d3, (key _).trans d4,
    (key _).trans d5, ?_, ?_, ?_⟩
  · intro hv
    obtain ⟨d, hd'⟩ := Option.isSome_iff_exists.mp ((spec_driver_isSome p).mpr hv)
    rw [drivers_process_file, if_pos ha, hk, hd']
    rfl
  · intro hv
    rw [drivers_process_file, if_pos ha, hk, (spec_driver_eq_none p).mpr hv]
  · intro q hp hq heq
    rw [hd, hd] at heq
    obtain ⟨d, hd'⟩ := Option.isSome_iff_exists.mp ((spec_driver_isSome p).mpr hp)
    obtain ⟨e, he'⟩ := Option.isSome_iff_exists.mp ((spec_driver_isSome q).mpr hq)
    rw [hd', he'] at heq
    have hde : d = e := by simpa using heq
    subst hde
    obtain ⟨q1, q2, q3, q4, q5⟩ := spec_driver_eq_some q
    cases d
    · exact (d1.mp hd').trans (q1.mp he').symm
    · exact (d2.mp hd').trans (q2.mp he').symm
    · exact (d3.mp hd').trans (q3.mp he').symm
    · exact (d4.mp hd').trans (q4.mp he').symm
    · exact (d5.mp hd').trans (q5.mp he').symm

/-- Witness for C4: language "C++", file "a.cpp" that opens, processing types 'T' and 'x'. -/
theorem processing_type_selects_driver_witness :
    accepted "C++" ∧ available ⟨fun _ => true, fun _ => ""⟩ "a.cpp" ∧
    ((drivers (process_file ⟨fun _ => true, fun _ => ""⟩ "C++" [] "a.cpp" 'T').events).map
        Prod.snd = [Driver.type_code_tokenize] ↔ 'T' = 'T') ∧
    (drivers (process_file ⟨fun _ => true, fun _ => ""⟩ "C++" [] "a.cpp" 'T').events).length
      = 1 ∧
    drivers (process_file ⟨fun _ => true, fun _ => ""⟩ "C++" [] "a.cpp" 'x').events = [] :=
  ⟨by decide, by decide,
   (processing_type_selects_driver ⟨fun _ => true, fun _ => ""⟩ "C++" [] "a.cpp" 'T'
      (by decide) (by decide)).2.2.2.2.1,
   (processing_type_selects_driver ⟨fun _ => true, fun _ => ""⟩ "C++" [] "a.cpp" 'T'
      (by decide) (by decide)).2.2.2.2.2.1 (by decide),
   (processing_type_selects_driver ⟨fun _ => true, fun _ => ""⟩ "C++" [] "a.cpp" 'x'
      (by decide) (by decide)).2.2.2.2.2.2.1 (by decide)⟩

/-! ## Lemmas on the loops of `main` -/

theorem andThen_none (a b : Outcome) (h : a.status = none) :
    a.andThen b = ⟨a.events ++ b.events, b.status⟩ := by
  simp [Outcome.andThen, h]

theorem andThen_some (a b : Outcome) (s : Nat) (h : a.status = some s) : a.andThen b = a := by
  cases a
  simp_all [Outcome.andThen]

theorem process_argv_eq (env : Env) (lang : String) (opt : List String) (p : Char)
    (args : List String) :
    process_argv env lang opt p args = process_each env (fun _ => lang) opt p args := by
  induction args with
  | nil => rfl
  | cons a rest ih => simp [process_argv, process_each, ih]

theorem process_filenames_eq (env : Env) (opt : List String) (p : Char)
    (filenames : List String) :
    process_filenames env opt p filenames = process_each env get_lang_from_ext opt p filenames := by
  induction filenames with
  | nil => rfl
  | cons a rest ih => simp [process_filenames, process_each, ih]

theorem read_filenames_eq (lines filenames : List String) :
    read_filenames lines filenames = filenames ++ lines.filter (fun cur => cur ≠ "") := by
  induction lines generalizing filenames with
  | nil => simp [read_filenames]
  | cons cur rest ih =>
    by_cases h : cur = ""
    · simp [read_filenames, h, ih]
    · simp [read_filenames, h, ih]

theorem status_process_file_cases (env : Env) (lang : String) (opt : List String)
    (filename : String) (p : Char) :
    (process_file env lang opt filename p).status = none ∨
    (process_file env lang opt filename p).status = some 1 := by
  rw [status_process_file]
  split_ifs
  · cases spec_variant lang <;> cases spec_driver p <;> simp
  · exact Or.inr rfl

/-- A loop over files: the events are those of the calls for the files reached, and the
loop has called `exit(1)` exactly when one of the calls does. -/
theorem process_each_eq (env : Env) (language : String → String) (opt : List String) (p : Char)
    (files : List String) :
    process_each env language opt p files =
      ⟨(reached (aborts env language opt p) files).flatMap
          (fun f => (process_file env (language f) opt f p).events),
        if files.any (aborts env language opt p) then some 1 else none⟩ := by
  induction files with
  | nil => rfl
  | cons f rest ih =>
    rcases status_process_file_cases env (language f) opt f p with h | h
    · have ha : aborts env language opt p f = false := by simp [aborts, h]
      rw [process_each, andThen_none _ _ h, ih]
      simp [reached, ha]
    · have ha : aborts env language opt p f = true := by simp [aborts, h]
      rw [process_each, andThen_some _ _ 1 h]
      cases hpf : process_file env (language f) opt f p with
      | mk ev st =>
        rw [hpf] at h
        simp only at h
        subst h
        simp [reached, ha, hpf]

theorem reached_of_none {α : Type} (ab : α → Bool) (l : List α) (h : ∀ x ∈ l, ab x = false) :
    reached ab l = l := by
  induction l with
  | nil => rfl
  | cons x xs ih =>
    have hx : ab x = false := h x (List.mem_cons_self _ _)
    simp [reached, hx, ih (fun y hy => h y (List.mem_cons_of_mem _ hy))]

theorem reached_of_first {α : Type} (ab : α → Bool) (pre post : List α) (x : α)
    (h : ∀ y ∈ pre, ab y = false) (hx : ab x = true) :
    reached ab (pre ++ x :: post) = pre ++ [x] := by
  induction pre with
  | nil => simp [reached, hx]
  | cons y ys ih =>
    have hy : ab y = false := h y (List.mem_cons_self _ _)
    simp [reached, hy, ih (fun z hz => h z (List.mem_cons_of_mem _ hz))]

theorem reached_is_initial {α : Type} (ab : α → Bool) (l : List α) : reached ab l <+: l := by
  induction l with
  | nil => exact List.prefix_refl _
  | cons x xs ih =>
    by_cases hx : ab x = true
    · simp only [reached, hx, if_true]
      exact ⟨xs, rfl⟩
    · simp only [reached, hx]
      exact (List.prefix_cons_inj x).mpr ih

theorem handed_flatMap (l : List String) (g : String → List Event)
    (h : ∀ f, handed (g f) = [f]) : handed (l.flatMap g) = l := by
  induction l with
  | nil => rfl
  | cons x xs ih => simp [List.flatMap_cons, handed_append, h, ih]

theorem handed_process_each (env : Env) (language : String → String) (opt : List String)
    (p : Char) (files : List String) :
    handed (process_each env language opt p files).events =
      reached (aborts env language opt p) files := by
  rw [process_each_eq]
  exact handed_flatMap _ _ (fun f => handed_process_file env (language f) opt f p)

theorem calls_process_each (env : Env) (language : String → String) (opt : List String)
    (p : Char) (files : List String) :
    calls (process_each env language opt p files).events =
      (reached (aborts env language opt p) files).map (fun f => (language f, f)) := by
  rw [process_each_eq]
  simp only
  induction reached (aborts env language opt p) files with
  | nil => rfl
  | cons x xs ih => simp [List.flatMap_cons, calls_append, calls_process_file, ih]

theorem opened_process_each (env : Env) (language : String → String) (opt : List String)
    (p : Char) (files : List String) :
    opened (process_each env language opt p files).events =
      (reached (aborts env language opt p) files).filter (fun f => f ≠ "") := by
  rw [process_each_eq]
  simp only
  induction reached (aborts env language opt p) files with
  | nil => rfl
  | cons x xs ih =>
    by_cases hx : x = "" <;>
      simp [List.flatMap_cons, opened_append, opened_process_file, ih, hx]

/-- What `main` does once the options are read: the loop over its inputs, then
`exit(EXIT_SUCCESS)`. -/
theorem main_eq (env : Env) (argv0 : String) (getopt : List (Char × String))
    (args lines : List String) (st : Options) (hst : getopt_loop argv0 getopt {} = Except.ok st) :
    main env argv0 getopt args lines =
      (process_each env (language_for st) st.processing_opt st.processing_type
        (if st.get_files_from_stdin = false ∧ args = [] then [""]
         else named_inputs st args lines)).andThen ⟨[], some EXIT_SUCCESS⟩ := by
  unfold main
  rw [hst]
  simp only
  by_cases hL : st.get_files_from_stdin = true
  · have hl : language_for st = get_lang_from_ext := by
      funext f; simp [language_for, hL]
    simp [hL, named_inputs, process_filenames_eq, read_filenames_eq, hl]
  · have hL' : st.get_files_from_stdin = false := by simpa using hL
    have hl : language_for st = fun _ => st.lang := by
      funext f; simp [language_for, hL']
    by_cases ha : args = []
    · subst ha
      simp only [hL', Bool.false_eq_true, if_false, if_true, and_self, hl, process_each]
      congr 1
      rcases status_process_file_cases env st.lang st.processing_opt "" st.processing_type
        with h | h
      · rw [andThen_none _ _ h]; simp [← h]
      · rw [andThen_some _ _ 1 h]
    · simp [hL', ha, named_inputs, process_argv_eq, hl]

theorem modes_process_file (env : Env) (lang : String) (opt : List String) (filename : String)
    (p : Char) : modes (process_file env lang opt filename p).events = [p] := by
  rw [process_file_eq]
  split_ifs
  · by_cases hf : filename = "" <;> cases spec_variant lang <;> cases spec_driver p <;>
      simp [modes, input_events, unknown_language, unknown_processing_type, hf]
  · simp [modes]

theorem modes_process_each (env : Env) (language : String → String) (opt : List String)
    (p : Char) (files : List String) :
    ∀ q ∈ modes (process_each env language opt p files).events, q = p := by
  rw [process_each_eq]
  simp only
  induction reached (aborts env language opt p) files with
  | nil => intro q hq; simp [modes] at hq
  | cons x xs ih =>
    intro q hq
    have happ : ∀ a b : List Event, modes (a ++ b) = modes a ++ modes b := by
      intro a b; simp [modes]
    rw [List.flatMap_cons, happ, modes_process_file] at hq
    rcases List.mem_append.mp hq with h | h
    · simpa using h
    · exact ih q h

theorem getopt_loop_ok (argv0 : String) (gs : List (Char × String)) (st st' : Options)
    (h : getopt_loop argv0 gs st = Except.ok st') :
    st'.lang = (last_optarg 'l' gs).getD st.lang ∧
    st'.processing_type = ((last_optarg 't' gs).map deref).getD st.processing_type := by
  induction gs generalizing st with
  | nil =>
    simp only [getopt_loop, Except.ok.injEq] at h
    subst h
    exact ⟨rfl, rfl⟩
  | cons g rest ih =>
    obtain ⟨o, a⟩ := g
    simp only [getopt_loop] at h
    split_ifs at h with h1 h2 h3 h4
    · subst h1
      obtain ⟨i1, i2⟩ := ih _ h
      simp only [last_optarg]
      constructor
      · rw [i1]; cases last_optarg 'l' rest <;> simp
      · rw [i2]; cases last_optarg 't' rest <;> simp
    · subst h2
      obtain ⟨i1, i2⟩ := ih _ h
      simp only [last_optarg]
      constructor
      · rw [i1]; cases last_optarg 'l' rest <;> simp
      · rw [i2]; cases last_optarg 't' rest <;> simp
    · subst h3
      obtain ⟨i1, i2⟩ := ih _ h
      simp only [last_optarg]
      constructor
      · rw [i1]; cases last_optarg 'l' rest <;> simp
      · rw [i2]; cases last_optarg 't' rest <;> simp
    · subst h4
      obtain ⟨i1, i2⟩ := ih _ h
      simp only [last_optarg]
      constructor
      · rw [i1]; cases last_optarg 'l' rest <;> simp
      · rw [i2]; cases last_optarg 't' rest <;> simp

theorem andThen_exit_events (a : Outcome) (s : Nat) :
    (a.andThen ⟨[], some s⟩).events = a.events := by
  cases h : a.status with
  | none => rw [andThen_none _ _ h]; simp
  | some t => rw [andThen_some _ _ t h]

theorem aborts_eq_false (env : Env) (language : String → String) (opt : List String) (p : Char)
    (f : String) (ha : available env f) (hl : accepted (language f)) (hp : valid_type p) :
    aborts env language opt p f = false := by
  obtain ⟨k, hk⟩ := Option.isSome_iff_exists.mp ((spec_variant_isSome _).mpr hl)
  obtain ⟨d, hd⟩ := Option.isSome_iff_exists.mp ((spec_driver_isSome _).mpr hp)
  simp [aborts, status_process_file, ha, hk, hd]

theorem accepted_get_lang_from_ext (f : String) : accepted (get_lang_from_ext f) := by
  unfold get_lang_from_ext
  split_ifs <;> decide

theorem aborts_iff (env : Env) (language : String → String) (opt : List String) (p : Char)
    (f : String) :
    aborts env language opt p f = true ↔
      (¬ available env f ∨ ¬ accepted (language f) ∨ ¬ valid_type p) := by
  constructor
  · intro h
    by_contra hc
    push_neg at hc
    rw [aborts_eq_false env language opt p f hc.1 hc.2.1 hc.2.2] at h
    cases h
  · intro h
    unfold aborts
    rw [status_process_file]
    split_ifs with ha
    · rcases h with h | h | h
      · exact absurd ha h
      · rw [(spec_variant_eq_none _).mpr h]; rfl
      · rw [(spec_driver_eq_none _).mpr h]; cases spec_variant (language f) <;> rfl
    · rfl

/-! ## Claims on `main` -/

/-- C5 (amended): in file-list mode the vector of filenames is exactly the list of non-empty
lines in their order, and the empty string is never handed to `process_file` nor opened.
`main` hands the non-empty lines to `process_file` in their order, up to and including the
first one whose call ends the run, which is the first one that does not open or, with an
invalid processing type, the first one; every non-empty line is handed over when every
listed file opens and the processing type is valid. -/
theorem file_list_skips_blank_lines (env : Env) (argv0 : String) (getopt : List (Char × String))
    (args lines : List String) (st : Options)
    (hst : getopt_loop argv0 getopt {} = Except.ok st) (hL : st.get_files_from_stdin = true) :
    read_filenames lines [] = lines.filter (fun cur => cur ≠ "") ∧
    handed (main env argv0 getopt args lines).events =
      reached (aborts env get_lang_from_ext st.processing_opt st.processing_type)
        (lines.filter (fun cur => cur ≠ "")) ∧
    (∀ f : String, aborts env get_lang_from_ext st.processing_opt st.processing_type f = true ↔
      (¬ available env f ∨ ¬ valid_type st.processing_type)) ∧
    handed (main env argv0 getopt args lines).events <+: lines.filter (fun cur => cur ≠ "") ∧
    List.Sublist (handed (main env argv0 getopt args lines).events) lines ∧
    "" ∉ handed (main env argv0 getopt args lines).events ∧
    "" ∉ opened (main env argv0 getopt args lines).events ∧
    (valid_type st.processing_type → (∀ f ∈ lines, f ≠ "" → env.good f = true) →
      handed (main env argv0 getopt args lines).events = lines.filter (fun cur => cur ≠ "")) := by
  have hl : language_for st = get_lang_from_ext := by
    funext f; simp [language_for, hL]
  have hh : handed (main env argv0 getopt args lines).events =
      reached (aborts env get_lang_from_ext st.processing_opt st.processing_type)
        (lines.filter (fun cur => cur ≠ "")) := by
    rw [main_eq env argv0 getopt args lines st hst, andThen_exit_events, handed_process_each]
    simp [hL, named_inputs, hl]
  have ho : opened (main env argv0 getopt args lines).events =
      (reached (aborts env get_lang_from_ext st.processing_opt st.processing_type)
        (lines.filter (fun cur => cur ≠ ""))).filter (fun f => f ≠ "") := by
    rw [main_eq env argv0 getopt args lines st hst, andThen_exit_events, opened_process_each]
    simp [hL, named_inputs, hl]
  have hpre := reached_is_initial
    (aborts env get_lang_from_ext st.processing_opt st.processing_type)
    (lines.filter (fun cur => cur ≠ ""))
  refine ⟨by simp [read_filenames_eq], hh, ?_, ?_, ?_, ?_, ?_, ?_⟩
  · intro f
    rw [aborts_iff]
    constructor
    · rintro (h | h | h)
      · exact Or.inl h
      · exact absurd (accepted_get_lang_from_ext f) h
      · exact Or.inr h
    · rintro (h | h)
      · exact Or.inl h
      · exact Or.inr (Or.inr h)
  · rw [hh]; exact hpre
  · rw [hh]; exact hpre.sublist.trans (List.filter_sublist _)
  · rw [hh]
    intro hmem
    have := hpre.subset hmem
    simp at this
  · rw [ho]
    intro hmem
    simp at hmem
  · intro hp hgood
    rw [hh]
    apply reached_of_none
    intro f hf
    have hf' := List.mem_filter.mp hf
    have hne : f ≠ "" := by simpa using hf'.2
    exact aborts_eq_false env get_lang_from_ext _ _ f (Or.inr (hgood f hf'.1 hne))
      (accepted_get_lang_from_ext f) hp

/-- Witness for C5: the list "", "x.py", "", "y" with every file opening. -/
theorem file_list_skips_blank_lines_witness :
    getopt_loop "tokenizer" [('L', "-")] {} = Except.ok { get_files_from_stdin := true } ∧
    handed (main ⟨fun _ => true, fun _ => ""⟩ "tokenizer" [('L', "-")] ["z.c"]
      ["", "x.py", "", "y"]).events = ["x.py", "y"] :=
  ⟨rfl,
   (file_list_skips_blank_lines ⟨fun _ => true, fun _ => ""⟩ "tokenizer" [('L', "-")] ["z.c"]
      ["", "x.py", "", "y"] { get_files_from_stdin := true } rfl rfl).2.2.2.2.2.2.2
      (by decide) (by decide)⟩

/-- C5 as stated fails: with the list "", "x.py", "", "y" and no file opening, the run ends
on "x.py", so the non-empty line "y" is never handed to `process_file`. -/
theorem file_list_stops_at_failed_open :
    getopt_loop "tokenizer" [('L', "-")] {} = Except.ok { get_files_from_stdin := true } ∧
    handed (main ⟨fun _ => false, fun _ => ""⟩ "tokenizer" [('L', "-")] []
      ["", "x.py", "", "y"]).events = ["x.py"] ∧
    handed (main ⟨fun _ => false, fun _ => ""⟩ "tokenizer" [('L', "-")] []
      ["", "x.py", "", "y"]).events ≠ ["", "x.py", "", "y"].filter (fun cur => cur ≠ "") ∧
    (main ⟨fun _ => false, fun _ => ""⟩ "tokenizer" [('L', "-")] []
      ["", "x.py", "", "y"]).status = some EXIT_FAILURE :=
  ⟨rfl, by decide, by decide, by decide⟩

/-- C7 (amended): without the file-list flag and without positional arguments `main` calls
`process_file` exactly once, with the empty filename and the language of `-l`, and no open is
attempted, so the run does not depend on the file system.  Without the flag and with
positional arguments, `process_file` is called on the arguments in their order, each with the
language of `-l`, once per argument up to and including the first call that ends the run (an
argument that does not open, or the first argument when the language or the processing type
is invalid), and on every argument when no call ends the run.  With the flag the positional
arguments play no part: the calls are on the non-empty listed lines in their order, each with
the language of its extension, again up to and including the first call that ends the run. -/
theorem input_source_selection (env : Env) (argv0 : String) (getopt : List (Char × String))
    (args lines : List String) (st : Options)
    (hst : getopt_loop argv0 getopt {} = Except.ok st) :
    st.lang = (last_optarg 'l' getopt).getD "" ∧
    (st.get_files_from_stdin = false → args = [] →
        calls (main env argv0 getopt args lines).events = [(st.lang, "")] ∧
        opened (main env argv0 getopt args lines).events = [] ∧
        (∀ env' : Env, main env' argv0 getopt args lines = main env argv0 getopt args lines)) ∧
    (st.get_files_from_stdin = false → args ≠ [] →
        calls (main env argv0 getopt args lines).events =
          (reached (aborts env (fun _ => st.lang) st.processing_opt st.processing_type) args).map
            (fun a => (st.lang, a)) ∧
        (∀ a : String,
          aborts env (fun _ => st.lang) st.processing_opt st.processing_type a = true ↔
            (¬ available env a ∨ ¬ accepted st.lang ∨ ¬ valid_type st.processing_type)) ∧
        handed (main env argv0 getopt args lines).events <+: args ∧
        ((∀ a ∈ args, available env a) → accepted st.lang → valid_type st.processing_type →
          calls (main env argv0 getopt args lines).events = args.map (fun a => (st.lang, a)))) ∧
    (st.get_files_from_stdin = true →
        main env argv0 getopt args lines = main env argv0 getopt [] lines ∧
        calls (main env argv0 getopt args lines).events =
          (reached (aborts env get_lang_from_ext st.processing_opt st.processing_type)
            (lines.filter (fun cur => cur ≠ ""))).map (fun f => (get_lang_from_ext f, f)) ∧
        List.Sublist (handed (main env argv0 getopt args lines).events) lines ∧
        (valid_type st.processing_type → (∀ f ∈ lines, f ≠ "" → env.good f = true) →
          calls (main env argv0 getopt args lines).events =
            (lines.filter (fun cur => cur ≠ "")).map (fun f => (get_lang_from_ext f, f)))) := by
  refine ⟨(getopt_loop_ok argv0 getopt {} st hst).1, ?_, ?_, ?_⟩
  · intro hL ha
    subst ha
    have hm : ∀ e : Env, main e argv0 getopt [] lines =
        (process_file e st.lang st.processing_opt "" st.processing_type).andThen
          ⟨[], some EXIT_SUCCESS⟩ := by
      intro e
      unfold main
      rw [hst]
      simp [hL]
    have hindep : ∀ e : Env, process_file e st.lang st.processing_opt "" st.processing_type =
        process_file env st.lang st.processing_opt "" st.processing_type := by
      intro e
      rw [process_file_eq, process_file_eq]
      simp [available]
    refine ⟨?_, ?_, ?_⟩
    · rw [hm, andThen_exit_events, calls_process_file]
    · rw [hm, andThen_exit_events, opened_process_file]
      simp
    · intro e
      rw [hm, hm, hindep]
  · intro hL ha
    have hl : language_for st = fun _ => st.lang := by
      funext f; simp [language_for, hL]
    have hc : calls (main env argv0 getopt args lines).events =
        (reached (aborts env (fun _ => st.lang) st.processing_opt st.processing_type) args).map
          (fun a => (st.lang, a)) := by
      rw [main_eq env argv0 getopt args lines st hst, andThen_exit_events, calls_process_each]
      simp [hL, ha, named_inputs, hl]
    have hh : handed (main env argv0 getopt args lines).events =
        reached (aborts env (fun _ => st.lang) st.processing_opt st.processing_type) args := by
      rw [main_eq env argv0 getopt args lines st hst, andThen_exit_events, handed_process_each]
      simp [hL, ha, named_inputs, hl]
    refine ⟨hc, ?_, ?_, ?_⟩
    · intro a
      exact aborts_iff env (fun _ => st.lang) _ _ a
    · rw [hh]; exact reached_is_initial _ _
    · intro hav hacc hp
      rw [hc, reached_of_none]
      intro a hmem
      exact aborts_eq_false env (fun _ => st.lang) _ _ a (hav a hmem) hacc hp
  · intro hL
    have hl : language_for st = get_lang_from_ext := by
      funext f; simp [language_for, hL]
    have hc : calls (main env argv0 getopt args lines).events =
        (reached (aborts env get_lang_from_ext st.processing_opt st.processing_type)
          (lines.filter (fun cur => cur ≠ ""))).map (fun f => (get_lang_from_ext f, f)) := by
      rw [main_eq env argv0 getopt args lines st hst, andThen_exit_events, calls_process_each]
      simp [hL, named_inputs, hl]
    refine ⟨?_, hc, ?_, ?_⟩
    · rw [main_eq env argv0 getopt args lines st hst, main_eq env argv0 getopt [] lines st hst]
      simp [hL, named_inputs]
    · rw [main_eq env argv0 getopt args lines st hst, andThen_exit_events, handed_process_each]
      simp only [hL, Bool.true_eq_false, false_and, if_false, named_inputs, if_true]
      exact (reached_is_initial _ _).sublist.trans (List.filter_sublist _)
    · intro hp hgood
      rw [hc, reached_of_none]
      intro f hf
      have hf' := List.mem_filter.mp hf
      have hne : f ≠ "" := by simpa using hf'.2
      exact aborts_eq_false env get_lang_from_ext _ _ f (Or.inr (hgood f hf'.1 hne))
        (accepted_get_lang_from_ext f) hp

/-- Witness for C7: `-l C` with the positional arguments "a.c" and "b.c", both opening;
`-l C` without arguments; and `-l C -L -` with an argument and one listed file. -/
theorem input_source_selection_witness :
    getopt_loop "tokenizer" [('l', "C")] {} = Except.ok { lang := "C" } ∧
    calls (main ⟨fun _ => true, fun _ => ""⟩ "tokenizer" [('l', "C")] ["a.c", "b.c"]
      ["ignored"]).events = [("C", "a.c"), ("C", "b.c")] ∧
    (calls (main ⟨fun _ => false, fun _ => ""⟩ "tokenizer" [('l', "C")] [] []).events =
        [("C", "")] ∧
      opened (main ⟨fun _ => false, fun _ => ""⟩ "tokenizer" [('l', "C")] [] []).events = [] ∧
      ∀ env' : Env, main env' "tokenizer" [('l', "C")] [] [] =
        main ⟨fun _ => false, fun _ => ""⟩ "tokenizer" [('l', "C")] [] []) ∧
    getopt_loop "tokenizer" [('l', "C"), ('L', "-")] {} =
      Except.ok { lang := "C", get_files_from_stdin := true } ∧
    main ⟨fun _ => true, fun _ => ""⟩ "tokenizer" [('l', "C"), ('L', "-")] ["a.c"] ["b.py"] =
      main ⟨fun _ => true, fun _ => ""⟩ "tokenizer" [('l', "C"), ('L', "-")] [] ["b.py"] ∧
    calls (main ⟨fun _ => true, fun _ => ""⟩ "tokenizer" [('l', "C"), ('L', "-")] ["a.c"]
      ["b.py"]).events =
      (["b.py"].filter (fun cur => cur ≠ "")).map (fun f => (get_lang_from_ext f, f)) :=
  ⟨rfl,
   ((input_source_selection ⟨fun _ => true, fun _ => ""⟩ "tokenizer" [('l', "C")]
      ["a.c", "b.c"] ["ignored"] { lang := "C" } rfl).2.2.1 rfl (by decide)).2.2.2
      (by decide) (by decide) (by decide),
   (input_source_selection ⟨fun _ => false, fun _ => ""⟩ "tokenizer" [('l', "C")]
      [] [] { lang := "C" } rfl).2.1 rfl rfl,
   rfl,
   ((input_source_selection ⟨fun _ => true, fun _ => ""⟩ "tokenizer" [('l', "C"), ('L', "-")]
      ["a.c"] ["b.py"] { lang := "C", get_files_from_stdin := true } rfl).2.2.2 rfl).1,
   ((input_source_selection ⟨fun _ => true, fun _ => ""⟩ "tokenizer" [('l', "C"), ('L', "-")]
      ["a.c"] ["b.py"] { lang := "C", get_files_from_stdin := true } rfl).2.2.2 rfl).2.2.2
      (by decide) (by decide)⟩

/-- C7 as stated fails: with the positional arguments "a", "b" and no file opening, the run
ends on "a", so `process_file` is called once and never for "b". -/
theorem positional_stops_at_failed_open :
    getopt_loop "tokenizer" [] {} = Except.ok {} ∧
    calls (main ⟨fun _ => false, fun _ => ""⟩ "tokenizer" [] ["a", "b"] []).events =
      [("", "a")] ∧
    calls (main ⟨fun _ => false, fun _ => ""⟩ "tokenizer" [] ["a", "b"] []).events ≠
      ["a", "b"].map (fun a => ("", a)) ∧
    (main ⟨fun _ => false, fun _ => ""⟩ "tokenizer" [] ["a", "b"] []).status =
      some EXIT_FAILURE :=
  ⟨rfl, by decide, by decide, by decide⟩

theorem deref_eq_T (s : String) : deref s = 'T' → ∃ rest, s.data = 'T' :: rest := by
  unfold deref
  cases hs : s.data with
  | nil => intro h; exact absurd h (by decide)
  | cons c rest => intro h; simp only at h; subst h; exact ⟨rest, rfl⟩

/-- C10: the processing type `main` ends up with is 'n' when there is no `-t` option and
otherwise the first character of the argument of the last `-t` option, and it is the
processing type of every call of `process_file`; the rest of the argument is ignored, so
"code" gives 'c' and both "type" and "type+code" give 't', and `type_code_tokenize` can only run
for an argument that starts with 'T'; the empty argument gives the NUL character, for which
`process_file` (accepted language, input there) exits with status 1 after the unknown
processing type message without running a driver. -/
theorem processing_type_is_first_char (env : Env) (argv0 : String)
    (getopt : List (Char × String)) (args lines : List String) (st : Options)
    (hst : getopt_loop argv0 getopt {} = Except.ok st) :
    (st.processing_type =
      match last_optarg 't' getopt with
      | none => 'n'
      | some s => deref s) ∧
    (∀ q ∈ modes (main env argv0 getopt args lines).events, q = st.processing_type) ∧
    (∀ (c : Char) (rest : List Char), deref ⟨c :: rest⟩ = c) ∧
    deref "code" = 'c' ∧ deref "type" = 't' ∧ deref "type+code" = 't' ∧
    (∀ (s lang : String) (opt : List String) (filename : String),
        Driver.type_code_tokenize ∈
          (drivers (process_file env lang opt filename (deref s)).events).map Prod.snd →
        ∃ rest, s.data = 'T' :: rest) ∧
    deref "" = Char.ofNat 0 ∧
    ¬ valid_type (deref "") ∧
    (∀ (lang : String) (opt : List String) (filename : String),
        accepted lang → available env filename →
        (process_file env lang opt filename (deref "")).status = some 1 ∧
        stderr (process_file env lang opt filename (deref "")).events =
          stderr unknown_processing_type ∧
        drivers (process_file env lang opt filename (deref "")).events = []) := by
  refine ⟨?_, ?_, fun c rest => rfl, by decide, by decide, by decide, ?_, by decide, by decide, ?_⟩
  · rw [(getopt_loop_ok argv0 getopt {} st hst).2]
    cases last_optarg 't' getopt <;> rfl
  · rw [main_eq env argv0 getopt args lines st hst, andThen_exit_events]
    exact modes_process_each _ _ _ _ _
  · intro s lang opt filename hmem
    apply deref_eq_T
    rw [drivers_process_file] at hmem
    split_ifs at hmem
    · cases hv : spec_variant lang with
      | none => rw [hv] at hmem; simp at hmem
      | some k =>
        cases hd : spec_driver (deref s) with
        | none => rw [hv, hd] at hmem; simp at hmem
        | some d =>
          rw [hv, hd] at hmem
          simp only [List.map_cons, List.map_nil, List.mem_singleton] at hmem
          subst hmem
          exact (spec_driver_eq_some (deref s)).2.2.2.2.mp hd
    · simp at hmem
  · intro lang opt filename hl ha
    obtain ⟨k, hk⟩ := Option.isSome_iff_exists.mp ((spec_variant_isSome lang).mpr hl)
    have hd : spec_driver (deref "") = none := by decide
    refine ⟨?_, ?_, ?_⟩
    · rw [status_process_file, if_pos ha, hk, hd]
    · rw [stderr_process_file, if_pos ha, hk, hd]
    · rw [drivers_process_file, if_pos ha, hk, hd]

/-- Witness for C10: the options `-t code -t type+code` leave the processing type 't', and the
processing type of an empty argument is turned down for the language "C" and a file that
opens. -/
theorem processing_type_is_first_char_witness :
    getopt_loop "tokenizer" [('t', "code"), ('t', "type+code")] {} =
      Except.ok { processing_type := 't' } ∧
    ('t' =
      match last_optarg 't' [('t', "code"), ('t', "type+code")] with
      | none => 'n'
      | some s => deref s) ∧
    ((process_file ⟨fun _ => true, fun _ => ""⟩ "C" [] "a.c" (deref "")).status = some 1 ∧
      stderr (process_file ⟨fun _ => true, fun _ => ""⟩ "C" [] "a.c" (deref "")).events =
        stderr unknown_processing_type ∧
      drivers (process_file ⟨fun _ => true, fun _ => ""⟩ "C" [] "a.c" (deref "")).events = []) :=
  ⟨rfl,
   (processing_type_is_first_char ⟨fun _ => true, fun _ => ""⟩ "tokenizer"
      [('t', "code"), ('t', "type+code")] [] [] { processing_type := 't' } rfl).1,
   (processing_type_is_first_char ⟨fun _ => true, fun _ => ""⟩ "tokenizer"
      [('t', "code"), ('t', "type+code")] [] [] { processing_type := 't' } rfl).2.2.2.2.2.2.2.2.2
      "C" [] "a.c" (by decide) (by decide)⟩

theorem project_flatMap {γ : Type} (ψ : List Event → List γ)
    (happ : ∀ a b, ψ (a ++ b) = ψ a ++ ψ b) (hnil : ψ [] = [])
    (g : String → List Event) (l : List String) :
    ψ (l.flatMap g) = l.flatMap (fun f => ψ (g f)) := by
  induction l with
  | nil => simpa using hnil
  | cons x xs ih => simp [List.flatMap_cons, happ, ih]

theorem flatMap_eq_self {γ : Type} (h : γ → List γ) (l : List γ) (hl : ∀ f ∈ l, h f = [f]) :
    l.flatMap h = l := by
  induction l with
  | nil => rfl
  | cons x xs ih =>
    simp [List.flatMap_cons, hl x (List.mem_cons_self _ _),
      ih (fun f hf => hl f (List.mem_cons_of_mem _ hf))]

theorem flatMap_eq_nil_of {β γ : Type} (h : β → List γ) (l : List β) (hl : ∀ f ∈ l, h f = []) :
    l.flatMap h = [] := by
  induction l with
  | nil => rfl
  | cons x xs ih =>
    simp [List.flatMap_cons, hl x (List.mem_cons_self _ _),
      ih (fun f hf => hl f (List.mem_cons_of_mem _ hf))]

theorem tokenized_append (a b : List Event) :
    tokenized (a ++ b) = tokenized a ++ tokenized b := by
  unfold tokenized
  rw [drivers_append, List.map_append]

theorem built_append (a b : List Event) : built (a ++ b) = built a ++ built b := by
  unfold built
  rw [constructed_append, List.map_append]

/-- A call that goes through: one tokenizer is built for the file, one driver runs on it and
nothing is written to `std::cerr`. -/
theorem process_file_ok (env : Env) (lang : String) (opt : List String) (f : String) (p : Char)
    (ha : available env f) (hl : accepted lang) (hp : valid_type p) :
    tokenized (process_file env lang opt f p).events = [f] ∧
    built (process_file env lang opt f p).events = [f] ∧
    stderr (process_file env lang opt f p).events = [] := by
  obtain ⟨k, hk⟩ := Option.isSome_iff_exists.mp ((spec_variant_isSome _).mpr hl)
  obtain ⟨d, hd⟩ := Option.isSome_iff_exists.mp ((spec_driver_isSome _).mpr hp)
  refine ⟨?_, ?_, ?_⟩
  · unfold tokenized; rw [drivers_process_file, if_pos ha, hk, hd]; rfl
  · unfold built; rw [constructed_process_file, if_pos ha, hk]; rfl
  · rw [stderr_process_file, if_pos ha, hk, hd]

/-- A call on a named input that does not open: nothing is built or run, and the one line
written is the open failure. -/
theorem process_file_unavailable (env : Env) (lang : String) (opt : List String) (f : String)
    (p : Char) (ha : ¬ available env f) :
    tokenized (process_file env lang opt f p).events = [] ∧
    built (process_file env lang opt f p).events = [] ∧
    stderr (process_file env lang opt f p).events = [unable_to_open env f] ∧
    (process_file env lang opt f p).status = some EXIT_FAILURE := by
  refine ⟨?_, ?_, ?_, ?_⟩
  · unfold tokenized; rw [drivers_process_file, if_neg ha]; rfl
  · unfold built; rw [constructed_process_file, if_neg ha]; rfl
  · rw [stderr_process_file, if_neg ha]
  · rw [status_process_file, if_neg ha]

theorem accepted_language_for (st : Options) (f : String)
    (h : st.get_files_from_stdin = true ∨ accepted st.lang) : accepted (language_for st f) := by
  unfold language_for
  split_ifs with hL
  · exact accepted_get_lang_from_ext f
  · rcases h with h | h
    · exact absurd h hL
    · exact h

/-- A call that returns has built one tokenizer for its file and run one driver on it. -/
theorem process_file_returns (env : Env) (lang : String) (opt : List String) (f : String)
    (p : Char) (h : (process_file env lang opt f p).status = none) :
    tokenized (process_file env lang opt f p).events = [f] ∧
    built (process_file env lang opt f p).events = [f] := by
  have hs := status_process_file env lang opt f p
  rw [h] at hs
  by_cases ha : available env f
  · rw [if_pos ha] at hs
    cases hv : spec_variant lang with
    | none => rw [hv] at hs; simp at hs
    | some k =>
      cases hd : spec_driver p with
      | none => rw [hv, hd] at hs; simp at hs
      | some d =>
        constructor
        · unfold tokenized
          rw [drivers_process_file, if_pos ha, hv, hd]
          rfl
        · unfold built
          rw [constructed_process_file, if_pos ha, hv]
          rfl
  · rw [if_neg ha] at hs
    cases hs

/-- A call that ends the run has run no driver, and has built at most the tokenizer for its
own file. -/
theorem process_file_exits (env : Env) (lang : String) (opt : List String) (f : String)
    (p : Char) (s : Nat) (h : (process_file env lang opt f p).status = some s) :
    tokenized (process_file env lang opt f p).events = [] ∧
    built (process_file env lang opt f p).events <+: [f] := by
  have hs := status_process_file env lang opt f p
  rw [h] at hs
  unfold tokenized built
  rw [drivers_process_file, constructed_process_file]
  by_cases ha : available env f
  · simp only [if_pos ha] at hs ⊢
    cases hv : spec_variant lang with
    | none => exact ⟨rfl, List.nil_prefix⟩
    | some k =>
      cases hd : spec_driver p with
      | none => exact ⟨rfl, List.prefix_refl _⟩
      | some d => rw [hv, hd] at hs; simp at hs
  · simp only [if_neg ha]
    exact ⟨rfl, List.nil_prefix⟩

/-- Whatever the language and the processing type: when the first input that does not open
is `fk`, the calls made are an initial part of the inputs up to `fk`, and the files that get a
tokenizer or a driver are an initial part of the inputs before `fk`. -/
theorem process_each_upto_failure (env : Env) (language : String → String) (opt : List String)
    (p : Char) (pre post : List String) (fk : String)
    (hpre : ∀ f ∈ pre, available env f) (hfk : ¬ available env fk) :
    handed (process_each env language opt p (pre ++ fk :: post)).events <+: pre ++ [fk] ∧
    tokenized (process_each env language opt p (pre ++ fk :: post)).events <+: pre ∧
    built (process_each env language opt p (pre ++ fk :: post)).events <+: pre := by
  induction pre with
  | nil =>
    have hs := process_file_unavailable env (language fk) opt fk p hfk
    simp only [List.nil_append, process_each]
    rw [andThen_some _ _ EXIT_FAILURE hs.2.2.2, handed_process_file, hs.1, hs.2.1]
    exact ⟨List.prefix_refl _, List.prefix_refl _, List.prefix_refl _⟩
  | cons f pre' ih =>
    obtain ⟨ih1, ih2, ih3⟩ := ih (fun g hg => hpre g (List.mem_cons_of_mem _ hg))
    simp only [List.cons_append, process_each]
    rcases status_process_file_cases env (language f) opt f p with h | h
    · obtain ⟨r1, r2⟩ := process_file_returns env (language f) opt f p h
      rw [andThen_none _ _ h]
      simp only [handed_append, tokenized_append, built_append, handed_process_file, r1, r2,
        List.singleton_append]
      exact ⟨(List.prefix_cons_inj f).mpr ih1, (List.prefix_cons_inj f).mpr ih2,
        (List.prefix_cons_inj f).mpr ih3⟩
    · obtain ⟨e1, e2⟩ := process_file_exits env (language f) opt f p 1 h
      rw [andThen_some _ _ 1 h, handed_process_file, e1]
      refine ⟨⟨pre' ++ [fk], rfl⟩, List.nil_prefix, ?_⟩
      exact e2.trans ⟨pre', rfl⟩

/-- C6 (amended): let f1..fn be the named inputs of a run (positional arguments, or the
non-empty lines in file-list mode) and fk the first that cannot be opened.  Then, whatever the
language and the processing type, the run ends with the failure status, the calls of
`process_file` are an initial part of f1..fk (none of f(k+1)..fn is processed), and the files
that get a tokenizer or a driver are an initial part of f1..f(k-1) (none for fk).  When
moreover k = 1, or the processing type is valid and the language is accepted (always so in
file-list mode), exactly f1..fk are handed to `process_file`, exactly f1..f(k-1) get a
tokenizer and a driver, and the only message is the open failure for fk.  When every input
opens and the language and processing type are valid, all inputs are tokenized in order,
nothing is written to `std::cerr` and the run ends with `EXIT_SUCCESS`. -/
theorem open_failure_is_fatal (env : Env) (argv0 : String) (getopt : List (Char × String))
    (args lines : List String) (st : Options)
    (hst : getopt_loop argv0 getopt {} = Except.ok st) :
    (∀ (pre post : List String) (fk : String),
        named_inputs st args lines = pre ++ fk :: post →
        (∀ f ∈ pre, available env f) → ¬ available env fk →
        (main env argv0 getopt args lines).status = some EXIT_FAILURE ∧
        handed (main env argv0 getopt args lines).events <+: pre ++ [fk] ∧
        tokenized (main env argv0 getopt args lines).events <+: pre ∧
        built (main env argv0 getopt args lines).events <+: pre ∧
        fk ∉ tokenized (main env argv0 getopt args lines).events ∧
        fk ∉ built (main env argv0 getopt args lines).events ∧
        (pre = [] ∨ (valid_type st.processing_type ∧
            (st.get_files_from_stdin = true ∨ accepted st.lang)) →
          handed (main env argv0 getopt args lines).events = pre ++ [fk] ∧
          tokenized (main env argv0 getopt args lines).events = pre ∧
          built (main env argv0 getopt args lines).events = pre ∧
          stderr (main env argv0 getopt args lines).events = [unable_to_open env fk])) ∧
    ((st.get_files_from_stdin = true ∨ args ≠ []) →
        (∀ f ∈ named_inputs st args lines, available env f) →
        valid_type st.processing_type → (st.get_files_from_stdin = true ∨ accepted st.lang) →
        (main env argv0 getopt args lines).status = some EXIT_SUCCESS ∧
        handed (main env argv0 getopt args lines).events = named_inputs st args lines ∧
        tokenized (main env argv0 getopt args lines).events = named_inputs st args lines ∧
        stderr (main env argv0 getopt args lines).events = []) := by
  have hmain := main_eq env argv0 getopt args lines st hst
  constructor
  · intro pre post fk hin hpre hfk
    have hsel : (if st.get_files_from_stdin = false ∧ args = [] then [""]
        else named_inputs st args lines) = pre ++ fk :: post := by
      split_ifs with hc
      · exfalso
        have : named_inputs st args lines = [] := by simp [named_inputs, hc.1, hc.2]
        rw [this] at hin
        simp at hin
      · exact hin
    rw [hsel] at hmain
    have hab : aborts env (language_for st) st.processing_opt st.processing_type fk = true := by
      simp [aborts, (process_file_unavailable env _ _ fk _ hfk).2.2.2]
    have hany : (pre ++ fk :: post).any
        (aborts env (language_for st) st.processing_opt st.processing_type) = true := by
      simp [hab]
    have hstat : (process_each env (language_for st) st.processing_opt st.processing_type
        (pre ++ fk :: post)).status = some 1 := by
      rw [process_each_eq]; simp only [hany, if_true]
    rw [andThen_some _ _ 1 hstat] at hmain
    have hup := process_each_upto_failure env (language_for st) st.processing_opt
      st.processing_type pre post fk hpre hfk
    rw [← hmain] at hup
    have hfkpre : fk ∉ pre := fun hm => hfk (hpre fk hm)
    refine ⟨by rw [hmain, hstat]; rfl, hup.1, hup.2.1, hup.2.2,
      fun hm => hfkpre (hup.2.1.subset hm), fun hm => hfkpre (hup.2.2.subset hm), ?_⟩
    intro hcfg
    have hok : ∀ f ∈ pre, available env f ∧ accepted (language_for st f) ∧
        valid_type st.processing_type := by
      intro f hf
      rcases hcfg with h | h
      · subst h; cases hf
      · exact ⟨hpre f hf, accepted_language_for st f h.2, h.1⟩
    have hreach : reached (aborts env (language_for st) st.processing_opt st.processing_type)
        (pre ++ fk :: post) = pre ++ [fk] :=
      reached_of_first _ pre post fk
        (fun f hf => aborts_eq_false env _ _ _ f (hok f hf).1 (hok f hf).2.1 (hok f hf).2.2) hab
    rw [hmain]
    refine ⟨?_, ?_, ?_, ?_⟩
    · rw [handed_process_each, hreach]
    · rw [process_each_eq, hreach]
      simp only
      rw [project_flatMap tokenized tokenized_append rfl, List.flatMap_append, List.flatMap_singleton,
        (process_file_unavailable env _ _ fk _ hfk).1, List.append_nil]
      exact flatMap_eq_self _ pre
        (fun f hf => (process_file_ok env _ _ f _ (hok f hf).1 (hok f hf).2.1 (hok f hf).2.2).1)
    · rw [process_each_eq, hreach]
      simp only
      rw [project_flatMap built built_append rfl, List.flatMap_append, List.flatMap_singleton,
        (process_file_unavailable env _ _ fk _ hfk).2.1, List.append_nil]
      exact flatMap_eq_self _ pre
        (fun f hf => (process_file_ok env _ _ f _ (hok f hf).1 (hok f hf).2.1 (hok f hf).2.2).2.1)
    · rw [process_each_eq, hreach]
      simp only
      rw [project_flatMap stderr stderr_append rfl, List.flatMap_append, List.flatMap_singleton,
        (process_file_unavailable env _ _ fk _ hfk).2.2.1,
        flatMap_eq_nil_of _ pre
          (fun f hf => (process_file_ok env _ _ f _ (hok f hf).1 (hok f hf).2.1
            (hok f hf).2.2).2.2)]
      rfl
  · intro hmode hav hp hlang
    have hsel : (if st.get_files_from_stdin = false ∧ args = [] then [""]
        else named_inputs st args lines) = named_inputs st args lines := by
      split_ifs with hc
      · exfalso
        rcases hmode with h | h
        · rw [hc.1] at h; cases h
        · exact h hc.2
      · rfl
    rw [hsel] at hmain
    have hok : ∀ f ∈ named_inputs st args lines,
        aborts env (language_for st) st.processing_opt st.processing_type f = false :=
      fun f hf => aborts_eq_false env _ _ _ f (hav f hf) (accepted_language_for st f hlang) hp
    have hreach := reached_of_none _ _ hok
    have hany : (named_inputs st args lines).any
        (aborts env (language_for st) st.processing_opt st.processing_type) = false := by
      rw [List.any_eq_false]
      intro f hf
      simp [hok f hf]
    have hstat : (process_each env (language_for st) st.processing_opt st.processing_type
        (named_inputs st args lines)).status = none := by
      rw [process_each_eq]; simp [hany]
    refine ⟨?_, ?_, ?_, ?_⟩
    · rw [hmain, andThen_none _ _ hstat]
    · rw [hmain, andThen_exit_events, handed_process_each, hreach]
    · rw [hmain, andThen_exit_events, process_each_eq, hreach]
      simp only
      rw [project_flatMap tokenized tokenized_append rfl]
      exact flatMap_eq_self _ _
        (fun f hf => (process_file_ok env _ _ f _ (hav f hf)
          (accepted_language_for st f hlang) hp).1)
    · rw [hmain, andThen_exit_events, process_each_eq, hreach]
      simp only
      rw [project_flatMap stderr stderr_append rfl]
      exact flatMap_eq_nil_of _ _
        (fun f hf => (process_file_ok env _ _ f _ (hav f hf)
          (accepted_language_for st f hlang) hp).2.2)

/-- Witness for C6: the arguments "a", "b", "c" in code mode where only "a" opens, the
arguments "a", "a" which both open, and the arguments "a", "b" with the processing type 'x'. -/
theorem open_failure_is_fatal_witness :
    getopt_loop "tokenizer" [('t', "c")] {} = Except.ok { processing_type := 'c' } ∧
    (main only_a "tokenizer" [('t', "c")] ["a", "b", "c"] []).status = some EXIT_FAILURE ∧
    (handed (main only_a "tokenizer" [('t', "c")] ["a", "b", "c"] []).events = ["a"] ++ ["b"] ∧
      tokenized (main only_a "tokenizer" [('t', "c")] ["a", "b", "c"] []).events = ["a"] ∧
      built (main only_a "tokenizer" [('t', "c")] ["a", "b", "c"] []).events = ["a"] ∧
      stderr (main only_a "tokenizer" [('t', "c")] ["a", "b", "c"] []).events =
        [unable_to_open only_a "b"]) ∧
    ((main only_a "tokenizer" [('t', "c")] ["a", "a"] []).status = some EXIT_SUCCESS ∧
      handed (main only_a "tokenizer" [('t', "c")] ["a", "a"] []).events =
        named_inputs { processing_type := 'c' } ["a", "a"] [] ∧
      tokenized (main only_a "tokenizer" [('t', "c")] ["a", "a"] []).events =
        named_inputs { processing_type := 'c' } ["a", "a"] [] ∧
      stderr (main only_a "tokenizer" [('t', "c")] ["a", "a"] []).events = []) ∧
    getopt_loop "tokenizer" [('t', "x")] {} = Except.ok { processing_type := 'x' } ∧
    handed (main only_a "tokenizer" [('t', "x")] ["a", "b"] []).events <+: ["a"] ++ ["b"] ∧
    "b" ∉ built (main only_a "tokenizer" [('t', "x")] ["a", "b"] []).events :=
  ⟨rfl,
   ((open_failure_is_fatal only_a "tokenizer" [('t', "c")] ["a", "b", "c"] []
      { processing_type := 'c' } rfl).1 ["a"] ["c"] "b" rfl (by decide) (by decide)).1,
   ((open_failure_is_fatal only_a "tokenizer" [('t', "c")] ["a", "b", "c"] []
      { processing_type := 'c' } rfl).1 ["a"] ["c"] "b" rfl (by decide) (by decide)).2.2.2.2.2.2
      (Or.inr ⟨by decide, Or.inr (by decide)⟩),
   (open_failure_is_fatal only_a "tokenizer" [('t', "c")] ["a", "a"] []
      { processing_type := 'c' } rfl).2 (Or.inr (by decide)) (by decide) (by decide)
      (Or.inr (by decide)),
   rfl,
   ((open_failure_is_fatal only_a "tokenizer" [('t', "x")] ["a", "b"] []
      { processing_type := 'x' } rfl).1 ["a"] [] "b" rfl (by decide) (by decide)).2.1,
   ((open_failure_is_fatal only_a "tokenizer" [('t', "x")] ["a", "b"] []
      { processing_type := 'x' } rfl).1 ["a"] [] "b" rfl (by decide) (by decide)).2.2.2.2.2.1⟩

/-- C6 as stated fails: with the processing type 'x' and the arguments "a", "b", of which "a"
opens and "b" is the first that does not, the run ends with status 1 on "a" and "a" is not
tokenized. -/
theorem open_failure_counterexample :
    getopt_loop "tokenizer" [('t', "x")] {} = Except.ok { processing_type := 'x' } ∧
    available only_a "a" ∧ ¬ available only_a "b" ∧
    tokenized (main only_a "tokenizer" [('t', "x")] ["a", "b"] []).events ≠ ["a"] ∧
    drivers (main only_a "tokenizer" [('t', "x")] ["a", "b"] []).events = [] ∧
    handed (main only_a "tokenizer" [('t', "x")] ["a", "b"] []).events = ["a"] ∧
    (main only_a "tokenizer" [('t', "x")] ["a", "b"] []).status = some 1 :=
  ⟨rfl, by decide, by decide, by decide, by decide, by decide, by decide⟩

theorem unable_to_open_not_unknown_language (env : Env) (filename : String) :
    unable_to_open env filename ≠ "Unknown language specified." := by
  intro h
  have h2 := congrArg String.data h
  simp [unable_to_open, String.data_append] at h2

theorem no_unknown_language_of_accepted (env : Env) (lang : String) (opt : List String)
    (f : String) (p : Char) (hl : accepted lang) :
    "Unknown language specified." ∉ stderr (process_file env lang opt f p).events := by
  obtain ⟨k, hk⟩ := Option.isSome_iff_exists.mp ((spec_variant_isSome _).mpr hl)
  rw [stderr_process_file, hk]
  split_ifs
  · cases spec_driver p
    · show "Unknown language specified." ∉ stderr unknown_processing_type
      decide
    · show "Unknown language specified." ∉ ([] : List String)
      simp
  · simp only [List.mem_singleton]
    exact fun hc => unable_to_open_not_unknown_language env f hc.symm

theorem java_iff_extension (f : String) :
    (get_lang_from_ext f = "" ∨ get_lang_from_ext f = "Java") ↔
      (endswith f ".java" = true ∨ ∀ e ∈ extensions, endswith f e = false) := by
  have excl : ∀ e ∈ extensions, e ≠ ".java" → endswith f e = true →
      ¬ (endswith f ".java" = true ∨ ∀ e' ∈ extensions, endswith f e' = false) := by
    intro e he hne hs hor
    rcases hor with h | h
    · exact hne (endswith_exclusive f e ".java" he (by decide) hs h)
    · rw [h e he] at hs; cases hs
  unfold get_lang_from_ext
  split_ifs with h1 h2 h3 h4 h5
  · have hfalse : ¬ ("C++" = "" ∨ "C++" = "Java") := by decide
    simp only [Bool.or_eq_true] at h1
    rcases h1 with (h | h) | h
    · exact iff_of_false hfalse (excl ".cpp" (by decide) (by decide) h)
    · exact iff_of_false hfalse (excl ".h" (by decide) (by decide) h)
    · exact iff_of_false hfalse (excl ".hpp" (by decide) (by decide) h)
  · exact iff_of_false (by decide) (excl ".cs" (by decide) (by decide) h2)
  · exact iff_of_false (by decide) (excl ".c" (by decide) (by decide) h3)
  · exact iff_of_true (Or.inr rfl) (Or.inl h4)
  · exact iff_of_false (by decide) (excl ".py" (by decide) (by decide) h5)
  · refine iff_of_true (Or.inl rfl) (Or.inr ?_)
    simp only [Bool.or_eq_true, not_or, Bool.not_eq_true] at h1
    simp only [Bool.not_eq_true] at h2 h3 h4 h5
    intro e he
    simp only [extensions, List.mem_cons, List.mem_singleton, List.not_mem_nil, or_false] at he
    rcases he with h | h | h | h | h | h | h <;> subst h
    · exact h1.1.1
    · exact h1.1.2
    · exact h1.2
    · exact h2
    · exact h3
    · exact h4
    · exact h5

/-- C8: the language `get_lang_from_ext` returns for a filename is always one that
`process_file` accepts, so in file-list mode (where every call of `process_file` gets
`get_lang_from_ext` of its own filename, whatever `-l` says) the unknown-language message is
never written; for a file that opens, the Java tokenizer is the one constructed exactly when
the filename ends with ".java" or with none of the seven extensions, "index.php" included. -/
theorem file_list_language_is_accepted (f : String) :
    accepted (get_lang_from_ext f) ∧
    (∀ (env : Env) (opt : List String) (p : Char),
        "Unknown language specified." ∉
          stderr (process_file env (get_lang_from_ext f) opt f p).events) ∧
    (∀ (env : Env) (argv0 : String) (getopt : List (Char × String)) (args lines : List String)
        (st : Options), getopt_loop argv0 getopt {} = Except.ok st →
        st.get_files_from_stdin = true →
        (∀ c ∈ calls (main env argv0 getopt args lines).events, c.1 = get_lang_from_ext c.2) ∧
        "Unknown language specified." ∉ stderr (main env argv0 getopt args lines).events) ∧
    (∀ (env : Env) (opt : List String) (p : Char), available env f →
        (constructed (process_file env (get_lang_from_ext f) opt f p).events =
            [⟨TokenizerKind.JavaTokenizer, f, opt⟩] ↔
          (endswith f ".java" = true ∨ ∀ e ∈ extensions, endswith f e = false))) ∧
    (∀ (env : Env) (opt : List String) (p : Char), available env "index.php" →
        constructed (process_file env (get_lang_from_ext "index.php") opt "index.php" p).events =
          [⟨TokenizerKind.JavaTokenizer, "index.php", opt⟩]) := by
  have hjava : ∀ (g : String) (env : Env) (opt : List String) (p : Char), available env g →
      (constructed (process_file env (get_lang_from_ext g) opt g p).events =
          [⟨TokenizerKind.JavaTokenizer, g, opt⟩] ↔
        (endswith g ".java" = true ∨ ∀ e ∈ extensions, endswith g e = false)) := by
    intro g env opt p ha
    rw [← java_iff_extension, ← (spec_variant_eq_some (get_lang_from_ext g)).1,
      constructed_process_file, if_pos ha]
    cases spec_variant (get_lang_from_ext g) <;> simp
  refine ⟨accepted_get_lang_from_ext f, ?_, ?_, hjava f, ?_⟩
  · intro env opt p
    exact no_unknown_language_of_accepted env _ opt f p (accepted_get_lang_from_ext f)
  · intro env argv0 getopt args lines st hst hL
    have hl : language_for st = get_lang_from_ext := by
      funext g; simp [language_for, hL]
    rw [main_eq env argv0 getopt args lines st hst, andThen_exit_events, hl]
    constructor
    · intro c hc
      rw [calls_process_each] at hc
      obtain ⟨g, _, hg⟩ := List.mem_map.mp hc
      rw [← hg]
    · rw [process_each_eq]
      simp only
      rw [project_flatMap stderr stderr_append rfl]
      intro hmem
      obtain ⟨g, _, hg⟩ := List.mem_flatMap.mp hmem
      exact no_unknown_language_of_accepted env _ _ g _ (accepted_get_lang_from_ext g) hg
  · intro env opt p ha
    exact (hjava "index.php" env opt p ha).mpr (Or.inr (by decide))

/-- Witness for C8: in file-list mode with `-l C`, the file "index.php" is passed the
language `get_lang_from_ext` gives it, the empty string, and the Java tokenizer is built. -/
theorem file_list_language_is_accepted_witness :
    getopt_loop "tokenizer" [('l', "C"), ('L', "-")] {} =
      Except.ok { lang := "C", get_files_from_stdin := true } ∧
    (∀ c ∈ calls (main ⟨fun _ => true, fun _ => ""⟩ "tokenizer" [('l', "C"), ('L', "-")] []
        ["index.php"]).events, c.1 = get_lang_from_ext c.2) ∧
    constructed (process_file ⟨fun _ => true, fun _ => ""⟩ (get_lang_from_ext "index.php") []
        "index.php" 'n').events = [⟨TokenizerKind.JavaTokenizer, "index.php", []⟩] :=
  ⟨rfl,
   ((file_list_language_is_accepted "index.php").2.2.1 ⟨fun _ => true, fun _ => ""⟩ "tokenizer"
      [('l', "C"), ('L', "-")] [] ["index.php"] { lang := "C", get_files_from_stdin := true }
      rfl rfl).1,
   (file_list_language_is_accepted "index.php").2.2.2.2 ⟨fun _ => true, fun _ => ""⟩ [] 'n'
      (by decide)⟩

end Tokenizer
